import Mathlib

/-!
Verification development for the ixmilia/calc symbolic expression engine
(TypeScript).  The embedding follows the Integer/Float/Ratio variant of the
source: `expression.ts` (tokenizer, shunter, RPN folding, expression classes,
function library, differentiator) and the matching `operator.ts` (operator
table and the numeric kernel `addSubNumerics` / `multiplyNumerics` /
`divideNumerics` / `exponentiateNumerics`).

Modelling conventions:
- JS `number` values flowing through Float expressions are modelled by `FVal`:
  an exact rational together with the IEEE-754 special values Infinity,
  -Infinity and NaN.  Rounding of f64 arithmetic is not modelled (rational
  arithmetic is exact); negative zero is not modelled.  Transcendental
  functions (`Math.sin`, `Math.pow`, ...) and the constants `Math.PI`,
  `Math.E` are platform f64 operations; they enter the model as opaque
  parameters collected in the `MathImpl` structure.
- Integer and Ratio components are modelled as `ℤ` (the source stores JS
  doubles that are integral at every reachable point of these code paths).
- Evaluation is modelled with explicit fuel; `EvalErr.noFuel` marks fuel
  exhaustion and is no behaviour of the source.  All other `EvalErr`
  constructors correspond to `throw new Error(...)` sites in the source.
-/

/-- Idealized JS `number`: exact rationals plus the IEEE-754 special values.
f64 rounding and negative zero are not modelled. -/
inductive FVal where
  | rat (q : ℚ)
  | inf
  | ninf
  | nan
  deriving DecidableEq, Repr

namespace FVal

/-- IEEE-754 negation. -/
def fneg : FVal → FVal
  | rat q => rat (-q)
  | inf => ninf
  | ninf => inf
  | nan => nan

/-- IEEE-754 addition (exact on the rational part). -/
def fadd : FVal → FVal → FVal
  | rat a, rat b => rat (a + b)
  | rat _, inf => inf
  | rat _, ninf => ninf
  | inf, rat _ => inf
  | ninf, rat _ => ninf
  | inf, inf => inf
  | ninf, ninf => ninf
  | inf, ninf => nan
  | ninf, inf => nan
  | nan, _ => nan
  | _, nan => nan

/-- IEEE-754 subtraction (exact on the rational part). -/
def fsub (a b : FVal) : FVal := fadd a (fneg b)

/-- IEEE-754 multiplication (exact on the rational part); `±∞ · 0 = NaN`. -/
def fmul : FVal → FVal → FVal
  | rat a, rat b => rat (a * b)
  | rat a, inf => if a > 0 then inf else if a < 0 then ninf else nan
  | rat a, ninf => if a > 0 then ninf else if a < 0 then inf else nan
  | inf, rat b => if b > 0 then inf else if b < 0 then ninf else nan
  | ninf, rat b => if b > 0 then ninf else if b < 0 then inf else nan
  | inf, inf => inf
  | ninf, ninf => inf
  | inf, ninf => ninf
  | ninf, inf => ninf
  | nan, _ => nan
  | _, nan => nan

/-- IEEE-754 division (exact on the rational part); dividing a nonzero
rational by (positive) zero yields a signed infinity, `0/0 = NaN`. -/
def fdiv : FVal → FVal → FVal
  | rat a, rat b =>
    if b = 0 then (if a > 0 then inf else if a < 0 then ninf else nan)
    else rat (a / b)
  | rat _, inf => rat 0
  | rat _, ninf => rat 0
  | inf, rat b => if b < 0 then ninf else inf
  | ninf, rat b => if b < 0 then inf else ninf
  | inf, inf => nan
  | inf, ninf => nan
  | ninf, inf => nan
  | ninf, ninf => nan
  | nan, _ => nan
  | _, nan => nan

/-- IEEE-754 `<` (NaN is incomparable). -/
def flt : FVal → FVal → Bool
  | rat a, rat b => a < b
  | rat _, inf => true
  | ninf, rat _ => true
  | ninf, inf => true
  | _, _ => false

/-- JS `Math.min` on two arguments (NaN-propagating). -/
def fmin (a b : FVal) : FVal :=
  if a = nan ∨ b = nan then nan else if flt b a then b else a

/-- JS `Math.max` on two arguments (NaN-propagating). -/
def fmax (a b : FVal) : FVal :=
  if a = nan ∨ b = nan then nan else if flt a b then b else a

end FVal

/-- The platform f64 math functions and constants used by the function
library and the exponentiation kernel, taken as opaque parameters: their
values are f64 computations the embedding does not model. -/
structure MathImpl where
  sinF : FVal → FVal
  cosF : FVal → FVal
  tanF : FVal → FVal
  asinF : FVal → FVal
  acosF : FVal → FVal
  atanF : FVal → FVal
  atan2F : FVal → FVal → FVal
  lnF : FVal → FVal
  powF : FVal → FVal → FVal
  piF : ℚ
  eF : ℚ

/-- A concrete dummy instantiation of `MathImpl` used for closed test
evaluations whose outcome does not depend on the transcendental functions. -/
def M0 : MathImpl where
  sinF := fun _ => FVal.nan
  cosF := fun _ => FVal.nan
  tanF := fun _ => FVal.nan
  asinF := fun _ => FVal.nan
  acosF := fun _ => FVal.nan
  atanF := fun _ => FVal.nan
  atan2F := fun _ _ => FVal.nan
  lnF := fun _ => FVal.nan
  powF := fun _ _ => FVal.nan
  piF := 3
  eF := 2

/-- The unary operators `~` (negate) and `!` (factorial). -/
inductive UOp where
  | neg
  | fact
  deriving DecidableEq, Repr

/-- The binary operators `+ - * / ^`. -/
inductive BOp where
  | add
  | sub
  | mul
  | div
  | pow
  deriving DecidableEq, Repr

/-- Expression trees (`Expression` and its subclasses in `expression.ts`).
`undef` models the JS `undefined` value that `Array.prototype.pop` returns
from an empty stack: `rpnToExpression`'s pops are unguarded
(`// TODO: ensure stack`), so `undefined` can end up as an operand. -/
inductive Expr where
  | int (value : ℤ)
  | float (value : FVal)
  | ratio (numerator denominator : ℤ)
  | var (name : String)
  | unary (operand : Expr) (op : UOp)
  | binary (left right : Expr) (op : BOp)
  | funcall (name : String) (args : List Expr)
  | undef

namespace Expr

/-- `Expression.isNumeric`. -/
def isNumeric : Expr → Bool
  | int _ => true
  | float _ => true
  | ratio _ _ => true
  | _ => false

/-- `Expression.isInteger`. -/
def isInt : Expr → Bool
  | int _ => true
  | _ => false

/-- `Expression.isFloat`. -/
def isFloat : Expr → Bool
  | float _ => true
  | _ => false

/-- `Expression.isRatio`. -/
def isRatio : Expr → Bool
  | ratio _ _ => true
  | _ => false

/-- `asFloat` on the numeric subclasses; `RatioExpression.asFloat` divides
numerator by denominator as JS numbers (so `(-1)/0 = -Infinity`).  On
non-numeric expressions (never reached by the source) it returns NaN. -/
def asFloat : Expr → FVal
  | int n => FVal.rat n
  | float v => v
  | ratio n d => FVal.fdiv (FVal.rat n) (FVal.rat d)
  | _ => FVal.nan

/-- `isZero` on the numeric subclasses (`value === 0`, and for ratios
`numerator === 0`). -/
def isZero : Expr → Bool
  | int n => n = 0
  | float v => v = FVal.rat 0
  | ratio n _ => n = 0
  | _ => false

/-- `isOne` on the numeric subclasses (`value === 1`, and for ratios
`numerator === denominator`). -/
def isOne : Expr → Bool
  | int n => n = 1
  | float v => v = FVal.rat 1
  | ratio n d => n = d
  | _ => false

end Expr

/-- `RatioExpression.gcd`: Euclid's loop with JS remainder.  It is called on
absolute values, so natural-number remainder matches the source. -/
def jsGcd (a b : ℕ) : ℕ :=
  if _h : b = 0 then a else jsGcd b (a % b)
decreasing_by exact Nat.mod_lt _ (Nat.pos_of_ne_zero _h)

/-- `Math.sign`. -/
def jsSign (n : ℤ) : ℤ := Int.sign n

/-- `RatioExpression.reduce`.  The source divides the components by their
gcd (an exact JS division here), takes absolute values, puts the sign on the
numerator, and collapses to an Integer when the numerator is 0 or the
denominator is 1.  When both components are 0 the source's `0/0` produces
NaN components; `ℤ` cannot represent NaN, so that unreachable-by-claims
corner is modelled as the ratio `0/0` itself. -/
def reduceRatio (n d : ℤ) : Expr :=
  let g : ℕ := jsGcd n.natAbs d.natAbs
  if g = 0 then Expr.ratio n d
  else
    let num1 : ℕ := n.natAbs / g
    let den1 : ℕ := d.natAbs / g
    let num : ℤ := if jsSign n ≠ jsSign d then -(num1 : ℤ) else (num1 : ℤ)
    if num = 0 then Expr.int 0
    else if den1 = 1 then Expr.int num
    else if num = n ∧ (den1 : ℤ) = d then Expr.ratio n d
    else Expr.ratio num (den1 : ℤ)

/-- The iterative factorial loop of `FactorialOperator`:
`for (let i = operand; i > 1; i--) result *= i` starting from `result = 1`.
For any start value `≤ 1` (including every negative integer) the loop body
never runs and the result is 1. -/
def jsFactorial (n : ℤ) : ℤ :=
  if _h : n > 1 then n * jsFactorial (n - 1) else 1
termination_by n.toNat
decreasing_by omega

/-- `Operators.addSubNumerics` (with `op` either `+` or `-`): Float
contaminates, otherwise both operands are treated as ratios, combined over a
common denominator, and reduced. -/
def addSubNumerics (isAdd : Bool) (l r : Expr) : Expr :=
  if l.isFloat || r.isFloat then
    Expr.float (if isAdd then FVal.fadd l.asFloat r.asFloat
                else FVal.fsub l.asFloat r.asFloat)
  else
    let ln : ℤ := match l with | .ratio n _ => n | .int n => n | _ => 0
    let ld : ℤ := match l with | .ratio _ d => d | _ => 1
    let rn : ℤ := match r with | .ratio n _ => n | .int n => n | _ => 0
    let rd : ℤ := match r with | .ratio _ d => d | _ => 1
    let denominator := ld * rd
    let numerator := if isAdd then ln * rd + rn * ld else ln * rd - rn * ld
    reduceRatio numerator denominator

/-- `Operators.multiplyNumerics`. -/
def multiplyNumerics (l r : Expr) : Expr :=
  if l.isFloat || r.isFloat then
    Expr.float (FVal.fmul l.asFloat r.asFloat)
  else
    let ln : ℤ := match l with | .ratio n _ => n | .int n => n | _ => 0
    let ld : ℤ := match l with | .ratio _ d => d | _ => 1
    let rn : ℤ := match r with | .ratio n _ => n | .int n => n | _ => 0
    let rd : ℤ := match r with | .ratio _ d => d | _ => 1
    reduceRatio (ln * rn) (ld * rd)

/-- `Operators.divideNumerics`: Float contaminates; otherwise the right
ratio is inverted and multiplied.  Note: the source has no zero-divisor
check on this exact path. -/
def divideNumerics (l r : Expr) : Expr :=
  if l.isFloat || r.isFloat then
    Expr.float (FVal.fdiv l.asFloat r.asFloat)
  else
    let ln : ℤ := match l with | .ratio n _ => n | .int n => n | _ => 0
    let ld : ℤ := match l with | .ratio _ d => d | _ => 1
    let rn : ℤ := match r with | .ratio n _ => n | .int n => n | _ => 0
    let rd : ℤ := match r with | .ratio _ d => d | _ => 1
    -- rightInverted = new RatioExpression(right.denominator, right.numerator)
    multiplyNumerics (Expr.ratio ln ld) (Expr.ratio rd rn)

/-- `Operators.exponentiateNumerics`: always computed as f64 `**` on the
`asFloat` images of the operands. -/
def exponentiateNumerics (M : MathImpl) (l r : Expr) : Expr :=
  Expr.float (M.powF l.asFloat r.asFloat)

/-- Evaluation errors; each non-`noFuel` constructor corresponds to a
`throw new Error(...)` site in the source.  `noFuel` marks exhaustion of the
fuel this embedding adds to bound recursion; it is no source behaviour.
`typeError` models the JS `TypeError` raised when a member of `undefined`
is accessed. -/
inductive EvalErr where
  | noFuel
  | divisionByZero
  | factorialDomain
  | sumBounds
  | unsupportedDiff
  | unknownFunction
  | arityMismatch
  | typeError
  deriving DecidableEq, Repr

/-- `AddOperator`'s symbolic rewrite (`evaluateExpressionInternal`): the
source swaps a numeric right operand to the left, applies `0 + x = x`, and
swaps back before rebuilding the node. -/
def addExpression (l r : Expr) : Expr :=
  if l.isNumeric && r.isNumeric then addSubNumerics true l r
  else
    let swapped := r.isNumeric
    let l1 := if swapped then r else l
    let r1 := if swapped then l else r
    if l1.isNumeric && l1.isZero then r1
    else
      let l2 := if swapped then r1 else l1
      let r2 := if swapped then l1 else r1
      Expr.binary l2 r2 .add

/-- `SubtractOperator`'s symbolic rewrite: `x - 0 = x`. -/
def subExpression (l r : Expr) : Expr :=
  if l.isNumeric && r.isNumeric then addSubNumerics false l r
  else if r.isNumeric && r.isZero then l
  else Expr.binary l r .sub

/-- `MultiplyOperator`'s symbolic rewrite: after the swap dance,
`1 * x = x` and `0 * x = Integer(0)`. -/
def mulExpression (l r : Expr) : Expr :=
  if l.isNumeric && r.isNumeric then multiplyNumerics l r
  else
    let swapped := r.isNumeric
    let l1 := if swapped then r else l
    let r1 := if swapped then l else r
    if l1.isNumeric && l1.isOne then r1
    else if l1.isNumeric && l1.isZero then Expr.int 0
    else
      let l2 := if swapped then r1 else l1
      let r2 := if swapped then l1 else r1
      Expr.binary l2 r2 .mul

/-- `DivideOperator`'s symbolic rewrite: `x / 1 = x`, `x / 0` raises
division-by-zero (this throw exists only on the symbolic path),
`0 / x = Integer(0)`. -/
def divExpression (l r : Expr) : Except EvalErr Expr :=
  if l.isNumeric && r.isNumeric then .ok (divideNumerics l r)
  else if r.isNumeric && r.isOne then .ok l
  else if r.isNumeric && r.isZero then .error .divisionByZero
  else if l.isNumeric && l.isZero then .ok (Expr.int 0)
  else .ok (Expr.binary l r .div)

/-- `ExponentiateOperator`'s symbolic rewrite: `x^0 = 1`, `x^1 = x`,
`0^x = 0`, `1^x = 1`. -/
def powExpression (l r : Expr) : Expr :=
  if r.isNumeric && r.isZero then Expr.int 1
  else if r.isNumeric && r.isOne then l
  else if l.isNumeric && l.isZero then Expr.int 0
  else if l.isNumeric && l.isOne then Expr.int 1
  else Expr.binary l r .pow

/-- The numeric kernel of each binary operator.  Only the symbolic paths can
raise; every numeric kernel is total (division by an exact zero builds a
ratio with denominator 0 instead of raising). -/
def binaryNumeric (M : MathImpl) : BOp → Expr → Expr → Expr
  | .add, l, r => addSubNumerics true l r
  | .sub, l, r => addSubNumerics false l r
  | .mul, l, r => multiplyNumerics l r
  | .div, l, r => divideNumerics l r
  | .pow, l, r => exponentiateNumerics M l r

/-- The symbolic rewrite of each binary operator. -/
def binarySymbolic : BOp → Expr → Expr → Except EvalErr Expr
  | .add, l, r => .ok (addExpression l r)
  | .sub, l, r => .ok (subExpression l r)
  | .mul, l, r => .ok (mulExpression l r)
  | .div, l, r => divExpression l r
  | .pow, l, r => .ok (powExpression l r)

/-- `NegateOperator`'s numeric kernel: negation preserves the variant.  The
final catch-all is unreachable (the kernel is dispatched on numerics). -/
def negateNumeric : Expr → Expr
  | .float v => .float (FVal.fneg v)
  | .ratio n d => .ratio (-n) d
  | .int n => .int (-n)
  | e => e

/-- `FactorialOperator`'s numeric kernel: raises unless the operand is an
Integer, then runs the iterative loop (which returns 1 for every start
value `≤ 1`, negative integers included). -/
def factorialNumeric : Expr → Except EvalErr Expr
  | .int n => .ok (.int (jsFactorial n))
  | _ => .error .factorialDomain

/-- The numeric kernel of each unary operator. -/
def unaryNumeric : UOp → Expr → Except EvalErr Expr
  | .neg, e => .ok (negateNumeric e)
  | .fact, e => factorialNumeric e

/-- The symbolic rewrite of both unary operators is the identity
pass-through (`operand => operand`). -/
def unarySymbolic : UOp → Expr → Expr
  | _, e => e

/-- `Expression.diff`: structural symbolic differentiation.  Constants
differentiate to 0, the matched variable to 1, other variables pass
through; sums, differences, products and quotients follow the usual rules;
`^` uses `D(u^w) = w * u^(w-1)` with the exponent treated as a constant.
Unary nodes, function calls and `undefined` hit the source's
`Unknown expression type` throw. -/
def diffE : Expr → String → Except EvalErr Expr
  | .float _, _ => .ok (.int 0)
  | .int _, _ => .ok (.int 0)
  | .ratio _ _, _ => .ok (.int 0)
  | .var name, v => .ok (if name = v then .int 1 else .var name)
  | .binary l r op, v =>
    match op with
    | .add => do
      let dl ← diffE l v
      let dr ← diffE r v
      .ok (.binary dl dr .add)
    | .sub => do
      let dl ← diffE l v
      let dr ← diffE r v
      .ok (.binary dl dr .sub)
    | .mul => do
      let dr ← diffE r v
      let dl ← diffE l v
      .ok (.binary (.binary l dr .mul) (.binary r dl .mul) .add)
    | .div => do
      let dl ← diffE l v
      let dr ← diffE r v
      .ok (.binary
            (.binary (.binary r dl .mul) (.binary l dr .mul) .sub)
            (.binary r r .mul) .div)
    | .pow =>
      .ok (.binary r (.binary l (.binary r (.int 1) .sub) .pow) .mul)
  | _, _ => .error .unsupportedDiff

/-- The decimal digit characters. -/
def digitChar (n : ℕ) : Char :=
  match n with
  | 0 => '0' | 1 => '1' | 2 => '2' | 3 => '3' | 4 => '4'
  | 5 => '5' | 6 => '6' | 7 => '7' | 8 => '8' | _ => '9'

/-- Decimal digits of a natural number, most significant first. -/
def natToDigits (n : ℕ) : List Char :=
  if _h : n < 10 then [digitChar n]
  else natToDigits (n / 10) ++ [digitChar (n % 10)]
termination_by n
decreasing_by omega

/-- JS integer-valued `Number.prototype.toString`, faithful on the range
`|n| < 2^53`: there the source's f64 `IntegerExpression` value holds `n`
exactly and the platform prints the plain decimal digit string (JS switches
to the exponential form, e.g. `"1e+21"`, only from 1e21 upward, and
`2^53 < 1e21`).  Outside that range the source holds a rounded double and
may print exponential notation, neither of which is modelled, so every
theorem that quantifies over Integers through this printer carries the
`< 2^53` bound. -/
def intToString (n : ℤ) : String :=
  if n < 0 then "-" ++ ⟨natToDigits n.natAbs⟩ else ⟨natToDigits n.natAbs⟩

/-- Multiplicity of a prime `p ≥ 2` in `d`. -/
def multOf (p : ℕ) : ℕ → ℕ
  | d =>
    if _h : 2 ≤ p ∧ d ≥ 2 ∧ d % p = 0 then multOf p (d / p) + 1 else 0
termination_by d => d
decreasing_by
  rename_i h
  exact Nat.div_lt_self (by omega) (by omega)

/-- JS `Number.prototype.toString` on a finite value, for values whose
reduced denominator is of the form `2^a * 5^b` (every exact f64 is of this
shape): the terminating decimal expansion.  Other rationals can appear only
through this embedding's exact-arithmetic idealization of f64; for those the
platform's shortest-round-trip formatting is outside the model and a
`num/den` placeholder is produced (no theorem relies on that branch). -/
def ratToString (q : ℚ) : String :=
  if q.den = 1 then intToString q.num
  else
    let a := multOf 2 q.den
    let b := multOf 5 q.den
    if 2 ^ a * 5 ^ b = q.den then
      let k := max a b
      let scaled := q.num.natAbs * 10 ^ k / q.den
      let intPart := scaled / 10 ^ k
      let fracPart := scaled % 10 ^ k
      let fracDigits := natToDigits fracPart
      let padded := List.replicate (k - fracDigits.length) '0' ++ fracDigits
      (if q.num < 0 then "-" else "") ++ ⟨natToDigits intPart⟩ ++ "." ++ ⟨padded⟩
    else intToString q.num ++ "/" ++ intToString (q.den : ℤ)

/-- JS `Number.prototype.toString` on an `FVal`. -/
def fvalToString : FVal → String
  | .rat q => ratToString q
  | .inf => "Infinity"
  | .ninf => "-Infinity"
  | .nan => "NaN"

/-- The printed symbol of a unary operator. -/
def uopSymbol : UOp → String
  | .neg => "~"
  | .fact => "!"

/-- The printed symbol of a binary operator. -/
def bopSymbol : BOp → String
  | .add => "+"
  | .sub => "-"
  | .mul => "*"
  | .div => "/"
  | .pow => "^"

mutual

/-- `Expression.toString` over the variants: integers and floats in decimal
form, ratios as `num/den`, unary operators printed PREFIX (also `!`, per
the source's TODO), binary nodes always parenthesised, function calls as
`name(arg1,arg2,...)`, and JS `undefined` interpolating as "undefined". -/
def Expr.toStr : Expr → String
  | .int n => intToString n
  | .float v => fvalToString v
  | .ratio n d => intToString n ++ "/" ++ intToString d
  | .var name => name
  | .unary operand op => uopSymbol op ++ operand.toStr
  | .binary l r op => "(" ++ l.toStr ++ bopSymbol op ++ r.toStr ++ ")"
  | .funcall name args => name ++ "(" ++ String.intercalate "," (Expr.argsToStr args) ++ ")"
  | .undef => "undefined"

/-- `toString` mapped over an argument list. -/
def Expr.argsToStr : List Expr → List String
  | [] => []
  | e :: rest => e.toStr :: Expr.argsToStr rest

end

/-- Trig mode (`Mode` enum): Radians = 0, Degrees = 1. -/
inductive Mode where
  | radians
  | degrees
  deriving DecidableEq, Repr

/-- Operator associativity. -/
inductive Assoc where
  | left
  | right
  deriving DecidableEq, Repr

/-- Tokens (`token.ts`), each carrying its source position. -/
inductive Token where
  | integer (text : List Char) (pos : ℕ) (value : ℤ)
  | float (text : List Char) (pos : ℕ) (value : FVal)
  | identifier (name : List Char) (pos : ℕ)
  | operator (sym : Char) (pos : ℕ) (assoc : Assoc) (prec : ℕ)
  | punctuation (sym : Char) (pos : ℕ)
  | functionCall (name : List Char) (pos : ℕ) (argCount : ℕ)
  deriving DecidableEq, Repr

/-- Lexing and parsing errors; each constructor other than `typeError`
corresponds to a `throw new Error(...)` site in `expression.ts`.
`typeError` models the JS `TypeError` crash of the comma branch when the
operator stack runs empty (and two unreachable guards). -/
inductive ParseErr where
  | unexpectedChar (c : Char) (pos : ℕ)
  | mismatchedParens
  | unexpectedPunctuation (c : Char)
  | unexpectedToken
  | unknownOperator
  | unbalancedStack
  | unknownFunction
  | arityMismatch
  | typeError
  deriving DecidableEq, Repr

/-- `Expression.isWhitespace`. -/
def isWhitespaceC (c : Char) : Bool :=
  c = ' ' || c = '\t' || c = '\n' || c = '\r'

/-- `Expression.isOperator`: membership in the symbols of
`Operators.WellKnownOperators`. -/
def isOperatorC (c : Char) : Bool :=
  c = '~' || c = '!' || c = '+' || c = '-' || c = '*' || c = '/' || c = '^'

/-- `Expression.isInfixOperator`: operator symbols of arity exactly 2. -/
def isInfixOperatorC (c : Char) : Bool :=
  c = '+' || c = '-' || c = '*' || c = '/' || c = '^'

/-- `Expression.isDigit`. -/
def isDigitC (c : Char) : Bool :=
  c = '0' || c = '1' || c = '2' || c = '3' || c = '4' ||
  c = '5' || c = '6' || c = '7' || c = '8' || c = '9'

/-- `Expression.isNumberStart`. -/
def isNumberStartC (c : Char) : Bool := isDigitC c || c = '.'

/-- `Expression.isIdentStart`. -/
def isIdentStartC (c : Char) : Bool :=
  ('a' ≤ c && c ≤ 'z') || ('A' ≤ c && c ≤ 'Z') || c = '_'

/-- `Expression.isIdentContinue`. -/
def isIdentContinueC (c : Char) : Bool := isIdentStartC c || isDigitC c

/-- `Expression.isPunctuation`. -/
def isPunctuationC (c : Char) : Bool := c = '(' || c = ')' || c = ','

/-- `Expression.associativity`. -/
def associativityOf (c : Char) : Assoc :=
  if c = '~' || c = '^' then .right else .left

/-- `Expression.precedence`.  The source throws on any other character; the
function is only applied to operator characters, so the catch-all 0 is
unreachable. -/
def precedenceOf (c : Char) : ℕ :=
  if c = '!' then 6
  else if c = '~' then 5
  else if c = '^' then 4
  else if c = '*' || c = '/' then 3
  else if c = '+' || c = '-' then 2
  else 0

/-- Numeric value of a digit character. -/
def digitVal (c : Char) : ℕ :=
  if c = '0' then 0 else if c = '1' then 1 else if c = '2' then 2
  else if c = '3' then 3 else if c = '4' then 4 else if c = '5' then 5
  else if c = '6' then 6 else if c = '7' then 7 else if c = '8' then 8
  else 9

/-- JS `parseInt` on a string of decimal digits. -/
def parseIntDigits (cs : List Char) : ℕ :=
  cs.foldl (fun a c => 10 * a + digitVal c) 0

/-- Split the longest run of leading digits off a character list. -/
def splitDigits : List Char → List Char × List Char
  | [] => ([], [])
  | c :: rest =>
    if isDigitC c then
      let (ds, r) := splitDigits rest
      (c :: ds, r)
    else ([], c :: rest)

/-- JS `parseFloat` on the number-shaped strings the lexer produces
(digits, optional `.` and fraction digits, optional exponent): the exact
rational value, or NaN when no mantissa digit is present (e.g. `"."`).
Rounding to f64 and overflow to Infinity are not modelled. -/
def parseFloatJS (cs : List Char) : FVal :=
  let (ds1, r1) := splitDigits cs
  let (ds2, r2) :=
    match r1 with
    | '.' :: rest => splitDigits rest
    | _ => ([], r1)
  if ds1.isEmpty && ds2.isEmpty then FVal.nan
  else
    let mant : ℚ := (parseIntDigits (ds1 ++ ds2) : ℕ)
    let base : ℚ := mant / (10 : ℚ) ^ ds2.length
    let expv : ℤ :=
      match r2 with
      | 'e' :: rest | 'E' :: rest =>
        let sgn : ℤ := match rest with | '-' :: _ => -1 | _ => 1
        let rest' : List Char := match rest with | '+' :: t => t | '-' :: t => t | t => t
        let (ds3, _) := splitDigits rest'
        if ds3.isEmpty then 0 else sgn * (parseIntDigits ds3 : ℕ)
      | _ => 0
    FVal.rat (base * (10 : ℚ) ^ expv)

/-- Lexer state machine states. -/
inductive LexState where
  | none
  | number
  | identifier
  deriving DecidableEq, Repr

/-- The mutable locals of `Expression.tokenize`. -/
structure LexSt where
  state : LexState
  current : List Char
  start : ℕ
  minusIsUnary : Bool
  seenDecimal : Bool
  seenE : Bool
  seenSign : Bool
  tokens : List Token

/-- `finishToken(position, 'number')`: emit an Integer token when the text
matches `^\d+$`, otherwise a Float token; clear `minusIsUnary`. -/
def finishNumber (st : LexSt) (pos : ℕ) : LexSt :=
  let tok :=
    if st.current ≠ [] ∧ st.current.all isDigitC then
      Token.integer st.current pos (parseIntDigits st.current : ℕ)
    else
      Token.float st.current pos (parseFloatJS st.current)
  { st with minusIsUnary := false, tokens := st.tokens ++ [tok] }

/-- `finishToken(position, 'identifier')`. -/
def finishIdentifier (st : LexSt) (pos : ℕ) : LexSt :=
  { st with minusIsUnary := false,
            tokens := st.tokens ++ [Token.identifier st.current pos] }

/-- The operator-emission step shared by the NUMBER and IDENTIFIER states of
`tokenize`: a `-` while `minusIsUnary` becomes `~`, any other operator is
emitted with its canonical associativity and precedence, and an infix
operator re-arms `minusIsUnary`. -/
def emitOperator (st : LexSt) (c : Char) (i : ℕ) : LexSt :=
  if c = '-' ∧ st.minusIsUnary then
    { st with tokens := st.tokens ++ [Token.operator '~' i (associativityOf '~') (precedenceOf '~')] }
  else
    let st := { st with tokens := st.tokens ++ [Token.operator c i (associativityOf c) (precedenceOf c)] }
    if isInfixOperatorC c then { st with minusIsUnary := true } else st

/-- The character loop of `Expression.tokenize`.  `i` is the index of the
next character.  Note the NONE-state operator branch: it emits operators
with precedence 0 (the canonical table is used only by the NUMBER and
IDENTIFIER exits), and the NUMBER state silently skips characters matched
by no branch, both faithful to the source. -/
def tokenizeLoop : List Char → ℕ → LexSt → Except ParseErr (List Token)
  | [], i, st =>
    match st.state with
    | .none => .ok st.tokens
    | .number => .ok (finishNumber st (i - 1)).tokens
    | .identifier => .ok (finishIdentifier st (i - 1)).tokens
  | c :: rest, i, st =>
    match st.state with
    | .none =>
      if isWhitespaceC c then tokenizeLoop rest (i + 1) st
      else if isOperatorC c then
        if c = '-' ∧ st.minusIsUnary then
          tokenizeLoop rest (i + 1)
            { st with tokens := st.tokens ++ [Token.operator '~' i .right 5] }
        else
          let st := { st with tokens := st.tokens ++
              [Token.operator c i (if c = '^' then .right else .left) 0] }
          let st := if isInfixOperatorC c then { st with minusIsUnary := true } else st
          tokenizeLoop rest (i + 1) st
      else if isPunctuationC c then
        tokenizeLoop rest (i + 1)
          { st with tokens := st.tokens ++ [Token.punctuation c i],
                    minusIsUnary := c ≠ ')' }
      else if isNumberStartC c then
        tokenizeLoop rest (i + 1)
          { st with state := .number, current := [c], start := i,
                    seenDecimal := c = '.', seenE := false, seenSign := false }
      else if isIdentStartC c then
        tokenizeLoop rest (i + 1)
          { st with state := .identifier, current := [c], start := i }
      else .error (.unexpectedChar c i)
    | .number =>
      if isDigitC c then
        tokenizeLoop rest (i + 1)
          { st with current := st.current ++ [c], seenSign := st.seenE }
      else if isWhitespaceC c then
        tokenizeLoop rest (i + 1) { finishNumber st st.start with state := .none }
      else if isPunctuationC c then
        let st := finishNumber st st.start
        tokenizeLoop rest (i + 1)
          { st with state := .none,
                    tokens := st.tokens ++ [Token.punctuation c i],
                    minusIsUnary := c ≠ ')' }
      else if c = '.' then
        if ¬st.seenDecimal ∧ ¬st.seenE then
          tokenizeLoop rest (i + 1)
            { st with current := st.current ++ [c], seenDecimal := true }
        else .error (.unexpectedChar c i)
      else if (c = 'e' ∨ c = 'E') ∧ ¬st.seenE then
        tokenizeLoop rest (i + 1)
          { st with current := st.current ++ [c], seenE := true, seenSign := false }
      else if (c = '-' ∨ c = '+') ∧ st.seenE ∧ ¬st.seenSign then
        tokenizeLoop rest (i + 1)
          { st with current := st.current ++ [c], seenSign := true }
      else if isOperatorC c then
        let st := emitOperator (finishNumber st st.start) c i
        tokenizeLoop rest (i + 1) { st with state := .none }
      else
        tokenizeLoop rest (i + 1) st
    | .identifier =>
      if isIdentContinueC c then
        tokenizeLoop rest (i + 1) { st with current := st.current ++ [c] }
      else if isWhitespaceC c then
        tokenizeLoop rest (i + 1) { finishIdentifier st st.start with state := .none }
      else if isOperatorC c then
        let st := emitOperator (finishIdentifier st st.start) c i
        tokenizeLoop rest (i + 1) { st with state := .none }
      else if isPunctuationC c then
        let st := finishIdentifier st st.start
        tokenizeLoop rest (i + 1)
          { st with state := .none,
                    tokens := st.tokens ++ [Token.punctuation c i],
                    minusIsUnary := c ≠ ')' }
      else .error (.unexpectedChar c i)

/-- `Expression.tokenize`. -/
def tokenize (text : List Char) : Except ParseErr (List Token) :=
  tokenizeLoop text 0
    { state := .none, current := [], start := 0, minusIsUnary := true,
      seenDecimal := false, seenE := false, seenSign := false, tokens := [] }

/-- The operator-popping loop of `shuntToRpn`: while the top of the stack is
an operator that binds at least as tightly (per the incoming operator's
associativity), move it to the output queue. -/
def opPopLoop (oA : Assoc) (oP : ℕ) :
    List Token → List Token → List Token × List Token
  | out, [] => (out, [])
  | out, t :: restStack =>
    match t with
    | .operator _ _ _ p =>
      if (oA = .left ∧ oP ≤ p) ∨ oP < p then opPopLoop oA oP (out ++ [t]) restStack
      else (out, t :: restStack)
    | _ => (out, t :: restStack)

/-- The `)` loop of `shuntToRpn`: pop to the output until the matching `(`
or an identifier marker; an identifier marker becomes a FunctionCall token
whose argument count is the popped count + 1, overridden to 0 for a
source-level `ident()` call.  Tokens matching no branch are popped and
dropped (unreachable).  An emptied stack is mismatched parentheses. -/
def closeParenLoop (isZeroArg : Bool) :
    List Token → List Token → List ℕ →
    Except ParseErr (List Token × List Token × List ℕ)
  | _, [], _ => .error .mismatchedParens
  | out, t :: restStack, args =>
    match t with
    | .operator _ _ _ _ => closeParenLoop isZeroArg (out ++ [t]) restStack args
    | .identifier name pos =>
      let argCount := if isZeroArg then 0 else args.headD 0 + 1
      .ok (out ++ [Token.functionCall name pos argCount], restStack, args.tail)
    | .punctuation s _ =>
      if s = '(' then .ok (out, restStack, args)
      else closeParenLoop isZeroArg out restStack args
    | _ => closeParenLoop isZeroArg out restStack args

/-- The `,` loop of `shuntToRpn`: pop to the output until an identifier
marker tops the stack.  On an empty stack the source crashes with a JS
`TypeError` (reading `.type` of `undefined`). -/
def commaLoop : List Token → List Token → Except ParseErr (List Token × List Token)
  | _, [] => .error .typeError
  | out, t :: restStack =>
    match t with
    | .identifier _ _ => .ok (out, t :: restStack)
    | _ => commaLoop (out ++ [t]) restStack

/-- The token loop of `Expression.shuntToRpn`, carrying the two previous
tokens for the function-marker checks at `(` and `)`.  At the end the
operator stack is drained onto the output: the source's
`'lparen'`/`'rparen'` mismatch cases there are dead (punctuation tokens
have type `'punctuation'`), so leftover parentheses are emitted into the
RPN stream. -/
def shuntLoop :
    List Token → Option Token → Option Token →
    List Token → List Token → List ℕ → Except ParseErr (List Token)
  | [], _, _, out, opStack, _ => .ok (out ++ opStack)
  | t :: rest, prev1, prev2, out, opStack, args =>
    match t with
    | .identifier _ _ => shuntLoop rest (some t) prev1 (out ++ [t]) opStack args
    | .integer _ _ _ => shuntLoop rest (some t) prev1 (out ++ [t]) opStack args
    | .float _ _ _ => shuntLoop rest (some t) prev1 (out ++ [t]) opStack args
    | .operator _ _ a p =>
      let r := opPopLoop a p out opStack
      shuntLoop rest (some t) prev1 r.1 (t :: r.2) args
    | .punctuation c _ =>
      if c = '(' then
        match prev1 with
        | some (.identifier _ _) =>
          match out.getLast? with
          | some fid =>
            shuntLoop rest (some t) prev1 out.dropLast (fid :: opStack) (0 :: args)
          | none => .error .typeError
        | _ => shuntLoop rest (some t) prev1 out (t :: opStack) args
      else if c = ')' then
        let isZeroArg :=
          match prev1, prev2 with
          | some (.punctuation c1 _), some (.identifier _ _) => c1 = '('
          | _, _ => false
        match closeParenLoop isZeroArg out opStack args with
        | .error e => .error e
        | .ok (out', stack', args') => shuntLoop rest (some t) prev1 out' stack' args'
      else if c = ',' then
        match commaLoop out opStack with
        | .error e => .error e
        | .ok (out', stack') =>
          shuntLoop rest (some t) prev1 out' stack' ((args.headD 0 + 1) :: args.tail)
      else .error (.unexpectedPunctuation c)
    | .functionCall _ _ _ => .error .unexpectedToken

/-- `Expression.shuntToRpn`. -/
def shuntToRpn (tokens : List Token) : Except ParseErr (List Token) :=
  shuntLoop tokens none none [] [] []

/-- Minimum and maximum argument counts of the built-in functions
(`defaultFunctions`). -/
def functionArity (name : String) : Option (ℕ × ℕ) :=
  if name = "acos" ∨ name = "asin" ∨ name = "atan" ∨ name = "cos" ∨
     name = "ln" ∨ name = "sin" ∨ name = "tan" then some (1, 1)
  else if name = "atan2" ∨ name = "diff" ∨ name = "log" ∨ name = "max" ∨
     name = "min" then some (2, 2)
  else if name = "sum" then some (4, 4)
  else none

/-- The unguarded `stack.pop()!` of `rpnToExpression`: JS `pop` on an empty
array yields `undefined`. -/
def pop1 : List Expr → Expr × List Expr
  | [] => (Expr.undef, [])
  | e :: rest => (e, rest)

/-- Pop `n` values (unguarded), in pop order. -/
def popN : ℕ → List Expr → List Expr × List Expr
  | 0, stack => ([], stack)
  | n + 1, stack =>
    let p := pop1 stack
    let r := popN n p.2
    (p.1 :: r.1, r.2)

/-- `Expression.rpnToExpression`: fold the RPN stream over a value stack.
Operator pops are unguarded (`// TODO: ensure stack`): missing operands
surface as `undef`, not as an error.  Binary nodes are built as
`Binary(args[1], args[0])`; function argument lists are popped then
reversed, and the `FunctionCallExpression` constructor validates the name
against `defaultFunctions` and the argument count against the declared
arity.  At the end the stack must hold exactly one value. -/
def rpnToExpression : List Token → List Expr → Except ParseErr Expr
  | [], stack =>
    match stack with
    | [e] => .ok e
    | _ => .error .unbalancedStack
  | t :: rest, stack =>
    match t with
    | .functionCall name _ n =>
      let p := popN n stack
      let args := p.1.reverse
      match functionArity (String.mk name) with
      | none => .error .unknownFunction
      | some ar =>
        if args.length < ar.1 ∨ args.length > ar.2 then .error .arityMismatch
        else rpnToExpression rest (Expr.funcall (String.mk name) args :: p.2)
    | .identifier name _ => rpnToExpression rest (Expr.var (String.mk name) :: stack)
    | .integer _ _ v => rpnToExpression rest (Expr.int v :: stack)
    | .float _ _ v => rpnToExpression rest (Expr.float v :: stack)
    | .operator sym _ _ _ =>
      if sym = '!' ∨ sym = '~' then
        let p := pop1 stack
        rpnToExpression rest
          (Expr.unary p.1 (if sym = '!' then .fact else .neg) :: p.2)
      else if sym = '+' ∨ sym = '-' ∨ sym = '*' ∨ sym = '/' ∨ sym = '^' then
        let p0 := pop1 stack
        let p1 := pop1 p0.2
        let op : BOp :=
          if sym = '+' then .add else if sym = '-' then .sub
          else if sym = '*' then .mul else if sym = '/' then .div else .pow
        rpnToExpression rest (Expr.binary p1.1 p0.1 op :: p1.2)
      else .error .unknownOperator
    | .punctuation _ _ => .error .unexpectedToken

/-- `Expression.parse`. -/
def parseString (text : String) : Except ParseErr Expr := do
  let toks ← tokenize text.data
  let rpn ← shuntToRpn toks
  rpnToExpression rpn []

/-- Variable environments: a JS object used as a string-keyed map.  Lookup
takes the first match, so the overriding entry of a JS object spread is the
one consed on the front. -/
abbrev Env := List (String × Expr)

/-- Result of an evaluation step. -/
abbrev EvalRes := Except EvalErr Expr

/-- `Operator.evaluate` for a unary operator: re-evaluate the (already
evaluated) operand, then dispatch to the numeric kernel or the symbolic
rewrite.  The source's arity guard is trivially satisfied (the operator is
always handed exactly one argument) and raises nothing here. -/
def applyUnary (ev : Expr → EvalRes) (op : UOp) (v : Expr) : EvalRes :=
  match ev v with
  | .error e => .error e
  | .ok v' =>
    if v'.isNumeric then unaryNumeric op v' else .ok (unarySymbolic op v')

/-- `Operator.evaluate` for a binary operator: re-evaluate both (already
evaluated) operands, then dispatch to the numeric kernel or the symbolic
rewrite. -/
def applyBinary (M : MathImpl) (ev : Expr → EvalRes) (op : BOp) (l r : Expr) :
    EvalRes :=
  match ev l with
  | .error e => .error e
  | .ok l' =>
    match ev r with
    | .error e => .error e
    | .ok r' =>
      if l'.isNumeric && r'.isNumeric then .ok (binaryNumeric M op l' r')
      else binarySymbolic op l' r'

/-- `args.map(a => a.evaluate(...))` with exception propagation: evaluate a
list of expressions left to right. -/
def evalArgs (ev : Expr → EvalRes) : List Expr → Except EvalErr (List Expr)
  | [] => .ok []
  | a :: rest =>
    match ev a with
    | .error e => .error e
    | .ok v =>
      match evalArgs ev rest with
      | .error e => .error e
      | .ok vs => .ok (v :: vs)

/-- `Expression.wrapNumberFunction`: evaluate the arguments; if all are
numeric apply the f64 function to their `asFloat` images and return a
Float, otherwise rebuild a symbolic call with the evaluated arguments. -/
def wrapNumberFunction (ev : Expr → EvalRes) (name : String)
    (fn : List FVal → FVal) (args : List Expr) : EvalRes :=
  match evalArgs ev args with
  | .error e => .error e
  | .ok evaluatedArgs =>
    if evaluatedArgs.all Expr.isNumeric then
      .ok (Expr.float (fn (evaluatedArgs.map Expr.asFloat)))
    else .ok (Expr.funcall name evaluatedArgs)

/-- `Expression.RadiansToDegrees`: the tree `180 / pi`. -/
def RadiansToDegrees : Expr :=
  Expr.binary (Expr.float (FVal.rat 180)) (Expr.var "pi") .div

/-- `Expression.DegreesToRadians`: the tree `pi / 180`. -/
def DegreesToRadians : Expr :=
  Expr.binary (Expr.var "pi") (Expr.float (FVal.rat 180)) .div

/-- `Expression.wrapTrig`: each argument is multiplied by the mode's
conversion factor and evaluated; if every scaled argument is numeric the
f64 function is applied, otherwise a symbolic call is rebuilt with the
already-scaled evaluated arguments. -/
def wrapTrig (ev : Expr → EvalRes) (name : String) (fn : List FVal → FVal)
    (mode : Mode) (args : List Expr) : EvalRes :=
  let multiplier := if mode = .degrees then DegreesToRadians else Expr.float (FVal.rat 1)
  match evalArgs (fun a => ev (Expr.binary a multiplier .mul)) args with
  | .error e => .error e
  | .ok evaluatedArgs =>
    if evaluatedArgs.all Expr.isNumeric then
      .ok (Expr.float (fn (evaluatedArgs.map Expr.asFloat)))
    else .ok (Expr.funcall name evaluatedArgs)

/-- `Expression.wrapTrigArc`: apply the plain numeric wrapper, then multiply
the intermediate result by the inverse conversion factor and evaluate. -/
def wrapTrigArc (ev : Expr → EvalRes) (name : String) (fn : List FVal → FVal)
    (mode : Mode) (args : List Expr) : EvalRes :=
  let multiplier := if mode = .degrees then RadiansToDegrees else Expr.float (FVal.rat 1)
  match wrapNumberFunction ev name fn args with
  | .error e => .error e
  | .ok intermediateResult => ev (Expr.binary intermediateResult multiplier .mul)

/-- The `.name` read of the sum/diff handlers: the source casts `args[1]`
to `VariableExpression` without a check, so on a non-variable argument the
JS property access yields `undefined`, which coerces to the key/name
string `"undefined"`. -/
def argName : Expr → String
  | .var n => n
  | _ => "undefined"

/-- The accumulation loop of the `sum` handler: for each value `i` of the
loop variable, evaluate the body in a child environment that shadows the
identifier with `Integer(i)`, then fold the result into the accumulator
with `+`, the fold step itself evaluated under the outer environment. -/
def sumLoop (ev : Env → Expr → EvalRes) (env : Env) (identName : String)
    (expr : Expr) : ℕ → ℤ → Expr → EvalRes
  | 0, _, acc => .ok acc
  | k + 1, i, acc =>
    match ev ((identName, Expr.int i) :: env) expr with
    | .error e => .error e
    | .ok next =>
      match ev env (Expr.binary acc next .add) with
      | .error e => .error e
      | .ok acc' => sumLoop ev env identName expr k (i + 1) acc'

/-- The `sum` handler: evaluate the bounds (which must be exact Integers),
then run the accumulating loop from start to end inclusive. -/
def sumHandler (ev : Env → Expr → EvalRes) (env : Env) (args : List Expr) :
    EvalRes :=
  let expr := args.getD 0 Expr.undef
  let identName := argName (args.getD 1 Expr.undef)
  match ev env (args.getD 2 Expr.undef) with
  | .error e => .error e
  | .ok start =>
    match ev env (args.getD 3 Expr.undef) with
    | .error e => .error e
    | .ok stop =>
      match start, stop with
      | .int s, .int e =>
        sumLoop ev env identName expr (e + 1 - s).toNat s (Expr.int 0)
      | _, _ => .error .sumBounds

/-- The `diff` handler: differentiate the first argument with respect to the
second argument's name, then evaluate the derivative tree. -/
def diffHandler (ev : Env → Expr → EvalRes) (env : Env) (args : List Expr) :
    EvalRes :=
  let expr := args.getD 0 Expr.undef
  let identName := argName (args.getD 1 Expr.undef)
  match diffE expr identName with
  | .error e => .error e
  | .ok d => ev env d

/-- `FunctionCallExpression.evaluate`: dispatch on the function name to the
`defaultFunctions` handler with the original (un-evaluated) arguments.  An
unknown name is the constructor's `function not found` throw (unreachable
through `parse`, which validates at construction). -/
def callFunction (M : MathImpl) (ev : Env → Expr → EvalRes) (mode : Mode)
    (env : Env) (name : String) (args : List Expr) : EvalRes :=
  if name = "acos" then
    wrapTrigArc (ev env) "acos" (fun l => M.acosF (l.headD .nan)) mode args
  else if name = "asin" then
    wrapTrigArc (ev env) "asin" (fun l => M.asinF (l.headD .nan)) mode args
  else if name = "atan" then
    wrapTrigArc (ev env) "atan" (fun l => M.atanF (l.headD .nan)) mode args
  else if name = "atan2" then
    wrapTrigArc (ev env) "atan2"
      (fun l => M.atan2F (l.getD 0 .nan) (l.getD 1 .nan)) mode args
  else if name = "cos" then
    wrapTrig (ev env) "cos" (fun l => M.cosF (l.headD .nan)) mode args
  else if name = "diff" then diffHandler ev env args
  else if name = "ln" then
    wrapNumberFunction (ev env) "ln" (fun l => M.lnF (l.headD .nan)) args
  else if name = "log" then
    wrapNumberFunction (ev env) "log"
      (fun l => FVal.fdiv (M.lnF (l.getD 1 .nan)) (M.lnF (l.getD 0 .nan))) args
  else if name = "max" then
    wrapNumberFunction (ev env) "max"
      (fun l => FVal.fmax (l.getD 0 .nan) (l.getD 1 .nan)) args
  else if name = "min" then
    wrapNumberFunction (ev env) "min"
      (fun l => FVal.fmin (l.getD 0 .nan) (l.getD 1 .nan)) args
  else if name = "sin" then
    wrapTrig (ev env) "sin" (fun l => M.sinF (l.headD .nan)) mode args
  else if name = "sum" then sumHandler ev env args
  else if name = "tan" then
    wrapTrig (ev env) "tan" (fun l => M.tanF (l.headD .nan)) mode args
  else .error .unknownFunction

/-- `Expression.evaluate` (the per-class `evaluate` methods), with fuel:
numeric leaves evaluate to themselves; a variable bound in the environment
recursively evaluates its binding under the same environment, an unbound
one stays symbolic; unary/binary nodes evaluate their children and hand the
results to `Operator.evaluate`; function calls dispatch with the original
argument list.  Evaluating `undef` models the JS `TypeError` of calling a
method on `undefined`. -/
def evalE (M : MathImpl) : ℕ → Mode → Env → Expr → EvalRes
  | 0, _, _, _ => .error .noFuel
  | f + 1, mode, env, e =>
    match e with
    | .int n => .ok (.int n)
    | .float v => .ok (.float v)
    | .ratio n d => .ok (.ratio n d)
    | .undef => .error .typeError
    | .var name =>
      match env.lookup name with
      | none => .ok (.var name)
      | some b => evalE M f mode env b
    | .unary a op =>
      match evalE M f mode env a with
      | .error err => .error err
      | .ok v => applyUnary (evalE M f mode env) op v
    | .binary l r op =>
      match evalE M f mode env l with
      | .error err => .error err
      | .ok lv =>
        match evalE M f mode env r with
        | .error err => .error err
        | .ok rv => applyBinary M (evalE M f mode env) op lv rv
    | .funcall name args =>
      callFunction M (fun env' => evalE M f mode env') mode env name args

/-- `Expression.defaultVariables`: `pi` and `e` as Floats of the platform
constants. -/
def defaultVariables (M : MathImpl) : Env :=
  [("pi", Expr.float (FVal.rat M.piF)), ("e", Expr.float (FVal.rat M.eF))]

/-- A failure of `Expression.evaluate(text, ...)`: either of the parse
pipeline or of tree evaluation. -/
inductive CalcErr where
  | parseErr (e : ParseErr)
  | evalErr (e : EvalErr)
  deriving DecidableEq, Repr

/-- `Expression.evaluate(text, mode, variables)`: parse, merge the user
variables over the defaults (user entries shadow built-ins), and evaluate. -/
def evalString (M : MathImpl) (fuel : ℕ) (mode : Mode) (userVars : Env)
    (text : String) : Except CalcErr Expr :=
  match parseString text with
  | .error e => .error (.parseErr e)
  | .ok expr =>
    match evalE M fuel mode (userVars ++ defaultVariables M) expr with
    | .error e => .error (.evalErr e)
    | .ok v => .ok v

/-- The normal form that the specification claims for every Ratio returned
by evaluate: coprime components, denominator at least 1, nonzero numerator
(a zero value must come back as `Integer(0)`). -/
def ratioNormalForm : Expr → Prop
  | .ratio n d => Int.gcd n d = 1 ∧ 1 ≤ d ∧ n ≠ 0
  | _ => True

/-- An arithmetic chain: a tree of the binary operators `+ - * / ^` in
which one operand evaluates to a Float and every operand hanging off the
spine evaluates to some numeric value. -/
inductive FloatChain (M : MathImpl) (mode : Mode) (env : Env) : Expr → Prop where
  | ofFloat (e : Expr) (q : FVal) (f : ℕ)
      (h : evalE M f mode env e = .ok (.float q)) : FloatChain M mode env e
  | left (l r v : Expr) (op : BOp) (f : ℕ)
      (hl : FloatChain M mode env l)
      (hr : evalE M f mode env r = .ok v) (hv : v.isNumeric = true) :
      FloatChain M mode env (.binary l r op)
  | right (l r v : Expr) (op : BOp) (f : ℕ)
      (hl : evalE M f mode env l = .ok v) (hv : v.isNumeric = true)
      (hr : FloatChain M mode env r) :
      FloatChain M mode env (.binary l r op)

/-- Pointwise fuel-monotonicity relation between two evaluation closures:
any result of the first other than fuel exhaustion is also produced by the
second. -/
def MonoStep (ev ev' : Expr → EvalRes) : Prop :=
  ∀ x r, ev x = r → r ≠ .error .noFuel → ev' x = r

/-- `MonoStep`, for environment-taking evaluation closures. -/
def MonoStepEnv (ev ev' : Env → Expr → EvalRes) : Prop :=
  ∀ env x r, ev env x = r → r ≠ .error .noFuel → ev' env x = r

/-- Numeric leaves evaluate to themselves at any positive fuel. -/
theorem evalE_numeric_leaf (M : MathImpl) (mode : Mode) (env : Env)
    (v : Expr) (hv : v.isNumeric = true) (f : ℕ) :
    evalE M (f + 1) mode env v = .ok v := by
  cases v <;> simp_all [evalE, Expr.isNumeric]

/-- The factorial loop returns 1 whenever the start value is at most 1. -/
theorem jsFactorial_of_le_one (n : ℤ) (h : n ≤ 1) : jsFactorial n = 1 := by
  rw [jsFactorial]
  rw [dif_neg (by omega)]

/-- C1: the specification says rational division by an exact zero raises
DivisionByZero before any Ratio is built; the numeric divide kernel has no
zero check, so `2/0` evaluates without error to the Ratio `-1/0`. -/
theorem C1_exact_division_by_zero_builds_ratio :
    evalString M0 100 .radians [] "2/0" = .ok (Expr.ratio (-1) 0) := by
  with_unfolding_all rfl

/-- C2: the specification says every Ratio returned by evaluate is in
normal form with denominator ≥ 1; `4/0` evaluates to the Ratio `-1/0`,
whose denominator is 0. -/
theorem C2_returned_ratio_not_normal_form :
    evalString M0 100 .radians [] "4/0" = .ok (Expr.ratio (-1) 0) ∧
    ¬ ratioNormalForm (Expr.ratio (-1) 0) := by
  refine ⟨by with_unfolding_all rfl, ?_⟩
  simp [ratioNormalForm]

/-- C3 counterexample: the claim says factorial of a negative Integer
raises FactorialDomain; evaluating `(-3)!` raises nothing and returns
`Integer(1)` (the iterative loop body never runs). -/
theorem C3_counterexample :
    evalString M0 100 .radians [] "(-3)!" = .ok (Expr.int 1) := by
  with_unfolding_all rfl

/-- C3 (amended): every evaluated numeric operand of `!` that is a Float or
a Ratio raises FactorialDomain, but a negative Integer does not raise: the
factorial loop returns `Integer(1)` for it. -/
theorem C3_amended (M : MathImpl) (mode : Mode) (env : Env) (f : ℕ) :
    (∀ v : Expr, v.isNumeric = true → v.isInt = false →
       evalE M (f + 2) mode env (Expr.unary v .fact) = .error .factorialDomain) ∧
    (∀ n : ℤ, n < 0 →
       evalE M (f + 2) mode env (Expr.unary (Expr.int n) .fact) = .ok (Expr.int 1)) := by
  constructor
  · intro v hnum hint
    cases v with
    | float q => rfl
    | ratio n d => rfl
    | int n => exact absurd hint (by simp [Expr.isInt])
    | var name => exact absurd hnum (by simp [Expr.isNumeric])
    | unary a op => exact absurd hnum (by simp [Expr.isNumeric])
    | binary l r op => exact absurd hnum (by simp [Expr.isNumeric])
    | funcall name args => exact absurd hnum (by simp [Expr.isNumeric])
    | undef => exact absurd hnum (by simp [Expr.isNumeric])
  · intro n hn
    have step : evalE M (f + 2) mode env (Expr.unary (Expr.int n) .fact) =
        .ok (.int (jsFactorial n)) := rfl
    rw [step, jsFactorial_of_le_one n (by omega)]

/-- C3 amended, witness: a Float operand raises FactorialDomain and the
Integer `-3` yields `Integer(1)`. -/
theorem C3_amended_witness :
    evalE M0 2 .radians [] (Expr.unary (Expr.float (FVal.rat (1/2))) .fact) =
      .error .factorialDomain ∧
    evalE M0 2 .radians [] (Expr.unary (Expr.int (-3)) .fact) = .ok (Expr.int 1) :=
  ⟨(C3_amended M0 .radians [] 0).1 (Expr.float (FVal.rat (1/2))) rfl rfl,
   (C3_amended M0 .radians [] 0).2 (-3) (by decide)⟩

/-- C4: the claim says RPN folding guards its pops and raises
StackUnderflow when operands are missing; the pops are unguarded
(`// TODO: ensure stack`), so parsing `3+` succeeds and returns a Binary
node whose left operand is the JS `undefined`. -/
theorem C4_missing_operand_builds_undefined_node :
    parseString "3+" = .ok (Expr.binary Expr.undef (Expr.int 3) .add) := by
  with_unfolding_all rfl

/-- C5 counterexample: the claim says a Float operand anywhere in an
arithmetic chain forces a Float result even with symbolic operands; the
chain `x*0.` (unbound `x`, Float zero) evaluates to `Integer(0)` via the
`x*0 = 0` identity rewrite, not to a Float. -/
theorem C5_counterexample :
    evalString M0 100 .radians [] "x*0." = .ok (Expr.int 0) ∧
    (Expr.int 0).isFloat = false :=
  ⟨by with_unfolding_all rfl, rfl⟩

/-- C7: symbolic differentiation rewrites a power node by
`D(u^w) = w * u^(w-1)` with the exponent treated as a constant, and after
the evaluator's identity simplifications `diff(x^3+2*x, x)` with `x` free
prints exactly `((3*(x^2))+2)`. -/
theorem C7_diff_power_rule_and_example :
    (∀ (u w : Expr) (v : String),
      diffE (Expr.binary u w .pow) v =
        .ok (Expr.binary w (Expr.binary u (Expr.binary w (Expr.int 1) .sub) .pow) .mul)) ∧
    ∃ e, evalString M0 100 .radians [] "diff(x^3+2*x, x)" = .ok e ∧
         e.toStr = "((3*(x^2))+2)" := by
  refine ⟨fun u w v => rfl,
    ⟨Expr.binary (Expr.binary (Expr.int 3)
        (Expr.binary (Expr.var "x") (Expr.int 2) .pow) .mul) (Expr.int 2) .add,
     by with_unfolding_all rfl, by with_unfolding_all rfl⟩⟩

/-- C8 counterexample: the claim says `~` returns a non-numeric evaluated
operand unchanged; in Degrees mode the operand `sin(x)` (unbound `x`)
evaluates to `sin(x*(pi/180))`, but `-sin(x)` evaluates to
`sin((x*(pi/180))*(pi/180))` — the operator's re-evaluation of its operand
re-enters the trig wrapper and scales the argument a second time, so the
operand is not returned unchanged. -/
theorem C8_counterexample :
    parseString "-sin(x)" = .ok (Expr.unary (Expr.funcall "sin" [Expr.var "x"]) .neg) ∧
    evalE M0 99 .degrees (defaultVariables M0) (Expr.funcall "sin" [Expr.var "x"]) =
      .ok (Expr.funcall "sin"
        [Expr.binary (Expr.var "x") (Expr.float (FVal.rat (1/60))) .mul]) ∧
    evalE M0 100 .degrees (defaultVariables M0)
        (Expr.unary (Expr.funcall "sin" [Expr.var "x"]) .neg) =
      .ok (Expr.funcall "sin"
        [Expr.binary (Expr.binary (Expr.var "x") (Expr.float (FVal.rat (1/60))) .mul)
          (Expr.float (FVal.rat (1/60))) .mul]) ∧
    Expr.funcall "sin"
        [Expr.binary (Expr.binary (Expr.var "x") (Expr.float (FVal.rat (1/60))) .mul)
          (Expr.float (FVal.rat (1/60))) .mul] ≠
      Expr.funcall "sin" [Expr.binary (Expr.var "x") (Expr.float (FVal.rat (1/60))) .mul] := by
  refine ⟨by with_unfolding_all rfl, by with_unfolding_all rfl,
    by with_unfolding_all rfl, ?_⟩
  simp

/-- C8 (amended): the symbolic rewrite of `~` is the identity pass-through
on the operator's re-evaluation of its operand: when that re-evaluation is
non-numeric it is returned as-is (for stable operands such as free
variables this is the operand unchanged); in particular `-x` with `x`
unbound evaluates to the Variable `x` itself. -/
theorem C8_amended (M : MathImpl) :
    (∀ (mode : Mode) (env : Env) (a v v' : Expr) (f : ℕ),
      evalE M f mode env a = .ok v →
      evalE M f mode env v = .ok v' →
      v'.isNumeric = false →
      evalE M (f + 1) mode env (Expr.unary a .neg) = .ok v') ∧
    evalString M 100 .radians [] "-x" = .ok (Expr.var "x") := by
  constructor
  · intro mode env a v v' f h1 h2 h3
    have step : evalE M (f + 1) mode env (Expr.unary a .neg) =
        match evalE M f mode env a with
        | .error err => .error err
        | .ok w => applyUnary (evalE M f mode env) .neg w := rfl
    rw [step, h1]
    simp only [applyUnary, h2, h3]
    simp [unarySymbolic]
  · with_unfolding_all rfl

/-- C8 amended, witness: negating the free variable `y` passes it through
unchanged. -/
theorem C8_amended_witness :
    evalE M0 2 .radians [] (Expr.unary (Expr.var "y") .neg) = .ok (Expr.var "y") :=
  (C8_amended M0).1 .radians [] (Expr.var "y") (Expr.var "y") (Expr.var "y") 1
    rfl rfl rfl

/-- C9 counterexample: the textual round-trip fails for purely numeric
texts.  `1/0.` evaluates to `Float(Infinity)`, whose string `"Infinity"`
re-parses as a free identifier and re-evaluates to the Variable
`Infinity`; and `-(2/0)` evaluates to the Ratio `1/0`, whose string
`"1/0"` re-evaluates to the different Ratio `-1/0`. -/
theorem C9_counterexample :
    (evalString M0 100 .radians [] "1/0." = .ok (Expr.float FVal.inf) ∧
     (Expr.float FVal.inf).toStr = "Infinity" ∧
     evalString M0 100 .radians [] "Infinity" = .ok (Expr.var "Infinity") ∧
     Expr.var "Infinity" ≠ Expr.float FVal.inf) ∧
    (evalString M0 100 .radians [] "-(2/0)" = .ok (Expr.ratio 1 0) ∧
     (Expr.ratio 1 0).toStr = "1/0" ∧
     evalString M0 100 .radians [] "1/0" = .ok (Expr.ratio (-1) 0) ∧
     Expr.ratio (-1) 0 ≠ Expr.ratio 1 0) := by
  refine ⟨⟨by with_unfolding_all rfl, by with_unfolding_all rfl,
    by with_unfolding_all rfl, by simp⟩,
    ⟨by with_unfolding_all rfl, by with_unfolding_all rfl,
     by with_unfolding_all rfl, by simp⟩⟩


theorem applyUnary_mono {ev ev' : Expr → EvalRes} (h : MonoStep ev ev')
    (op : UOp) (v : Expr) (r : EvalRes) (hr : applyUnary ev op v = r)
    (hnf : r ≠ .error .noFuel) : applyUnary ev' op v = r := by
  cases hev : ev v with
  | error e =>
    replace hr : Except.error e = r := by rw [← hr]; unfold applyUnary; rw [hev]
    subst hr
    unfold applyUnary
    rw [h v _ hev hnf]
  | ok v' =>
    replace hr : (if v'.isNumeric then unaryNumeric op v'
        else .ok (unarySymbolic op v')) = r := by
      rw [← hr]; unfold applyUnary; rw [hev]
    unfold applyUnary
    rw [h v _ hev (by simp)]
    exact hr

theorem applyBinary_mono {ev ev' : Expr → EvalRes} (h : MonoStep ev ev')
    (M : MathImpl) (op : BOp) (l r : Expr) (res : EvalRes)
    (hr : applyBinary M ev op l r = res) (hnf : res ≠ .error .noFuel) :
    applyBinary M ev' op l r = res := by
  cases hel : ev l with
  | error e =>
    replace hr : Except.error e = res := by rw [← hr]; unfold applyBinary; rw [hel]
    subst hr
    unfold applyBinary
    rw [h l _ hel hnf]
  | ok l' =>
    cases her : ev r with
    | error e =>
      replace hr : Except.error e = res := by
        rw [← hr]; unfold applyBinary; rw [hel, her]
      subst hr
      unfold applyBinary
      rw [h l _ hel (by simp), h r _ her hnf]
    | ok r' =>
      replace hr : (if l'.isNumeric && r'.isNumeric then
          .ok (binaryNumeric M op l' r') else binarySymbolic op l' r') = res := by
        rw [← hr]; unfold applyBinary; rw [hel, her]
      unfold applyBinary
      rw [h l _ hel (by simp), h r _ her (by simp)]
      exact hr

theorem evalArgs_mono {ev ev' : Expr → EvalRes} (h : MonoStep ev ev')
    (args : List Expr) (r : Except EvalErr (List Expr))
    (hr : evalArgs ev args = r) (hnf : r ≠ .error .noFuel) :
    evalArgs ev' args = r := by
  induction args generalizing r with
  | nil => exact hr
  | cons a rest ih =>
    cases hea : ev a with
    | error e =>
      replace hr : Except.error e = r := by rw [← hr]; unfold evalArgs; rw [hea]
      subst hr
      unfold evalArgs
      rw [h a _ hea (by simpa using hnf)]
    | ok v =>
      cases her : evalArgs ev rest with
      | error e =>
        replace hr : Except.error e = r := by
          rw [← hr]; unfold evalArgs; rw [hea, her]
        subst hr
        unfold evalArgs
        rw [h a _ hea (by simp), ih _ her hnf]
      | ok vs =>
        replace hr : Except.ok (v :: vs) = r := by
          rw [← hr]; unfold evalArgs; rw [hea, her]
        subst hr
        unfold evalArgs
        rw [h a _ hea (by simp), ih _ her (by simp)]

theorem wrapNumberFunction_mono {ev ev' : Expr → EvalRes} (h : MonoStep ev ev')
    (name : String) (fn : List FVal → FVal) (args : List Expr) (r : EvalRes)
    (hr : wrapNumberFunction ev name fn args = r) (hnf : r ≠ .error .noFuel) :
    wrapNumberFunction ev' name fn args = r := by
  cases hea : evalArgs ev args with
  | error e =>
    replace hr : Except.error e = r := by
      rw [← hr]; unfold wrapNumberFunction; rw [hea]
    subst hr
    unfold wrapNumberFunction
    rw [evalArgs_mono h args _ hea (by simpa using hnf)]
  | ok vs =>
    replace hr : (if vs.all Expr.isNumeric then
        .ok (Expr.float (fn (vs.map Expr.asFloat)))
        else .ok (Expr.funcall name vs)) = r := by
      rw [← hr]; unfold wrapNumberFunction; rw [hea]
    unfold wrapNumberFunction
    rw [evalArgs_mono h args _ hea (by simp)]
    exact hr

theorem wrapTrig_mono {ev ev' : Expr → EvalRes} (h : MonoStep ev ev')
    (name : String) (fn : List FVal → FVal) (mode : Mode) (args : List Expr)
    (r : EvalRes) (hr : wrapTrig ev name fn mode args = r)
    (hnf : r ≠ .error .noFuel) : wrapTrig ev' name fn mode args = r := by
  have h2 : MonoStep
      (fun a => ev (Expr.binary a (if mode = .degrees then DegreesToRadians
        else Expr.float (FVal.rat 1)) .mul))
      (fun a => ev' (Expr.binary a (if mode = .degrees then DegreesToRadians
        else Expr.float (FVal.rat 1)) .mul)) :=
    fun x res hx hnfx => h _ res hx hnfx
  cases hea : evalArgs (fun a => ev (Expr.binary a (if mode = .degrees then
      DegreesToRadians else Expr.float (FVal.rat 1)) .mul)) args with
  | error e =>
    replace hr : Except.error e = r := by
      rw [← hr]; simp only [wrapTrig]; rw [hea]
    subst hr
    simp only [wrapTrig]
    rw [evalArgs_mono h2 args _ hea (by simpa using hnf)]
  | ok vs =>
    replace hr : (if vs.all Expr.isNumeric then
        .ok (Expr.float (fn (vs.map Expr.asFloat)))
        else .ok (Expr.funcall name vs)) = r := by
      rw [← hr]; simp only [wrapTrig]; rw [hea]
    simp only [wrapTrig]
    rw [evalArgs_mono h2 args _ hea (by simp)]
    exact hr

theorem wrapTrigArc_mono {ev ev' : Expr → EvalRes} (h : MonoStep ev ev')
    (name : String) (fn : List FVal → FVal) (mode : Mode) (args : List Expr)
    (r : EvalRes) (hr : wrapTrigArc ev name fn mode args = r)
    (hnf : r ≠ .error .noFuel) : wrapTrigArc ev' name fn mode args = r := by
  cases hea : wrapNumberFunction ev name fn args with
  | error e =>
    replace hr : Except.error e = r := by
      rw [← hr]; simp only [wrapTrigArc]; rw [hea]
    subst hr
    simp only [wrapTrigArc]
    rw [wrapNumberFunction_mono h name fn args _ hea hnf]
  | ok v =>
    replace hr : ev (Expr.binary v (if mode = .degrees then RadiansToDegrees
        else Expr.float (FVal.rat 1)) .mul) = r := by
      rw [← hr]; simp only [wrapTrigArc]; rw [hea]
    simp only [wrapTrigArc]
    rw [wrapNumberFunction_mono h name fn args _ hea (by simp)]
    exact h _ _ hr hnf

theorem sumLoop_mono {ev ev' : Env → Expr → EvalRes} (h : MonoStepEnv ev ev')
    (env : Env) (identName : String) (expr : Expr) (count : ℕ) (i : ℤ)
    (acc : Expr) (r : EvalRes) (hr : sumLoop ev env identName expr count i acc = r)
    (hnf : r ≠ .error .noFuel) : sumLoop ev' env identName expr count i acc = r := by
  induction count generalizing i acc r with
  | zero => exact hr
  | succ k ih =>
    cases hen : ev ((identName, Expr.int i) :: env) expr with
    | error e =>
      replace hr : Except.error e = r := by rw [← hr]; simp only [sumLoop, hen]
      subst hr
      have hen' := h _ _ _ hen hnf
      simp only [sumLoop, hen']
    | ok next =>
      have hen' := h _ _ _ hen (by simp)
      cases hac : ev env (Expr.binary acc next .add) with
      | error e =>
        replace hr : Except.error e = r := by
          rw [← hr]; simp only [sumLoop, hen, hac]
        subst hr
        have hac' := h _ _ _ hac hnf
        simp only [sumLoop, hen', hac']
      | ok acc' =>
        replace hr : sumLoop ev env identName expr k (i + 1) acc' = r := by
          rw [← hr]; simp only [sumLoop, hen, hac]
        have hac' := h _ _ _ hac (by simp)
        simp only [sumLoop, hen', hac']
        exact ih _ _ _ hr hnf

theorem sumHandler_mono {ev ev' : Env → Expr → EvalRes} (h : MonoStepEnv ev ev')
    (env : Env) (args : List Expr) (r : EvalRes)
    (hr : sumHandler ev env args = r) (hnf : r ≠ .error .noFuel) :
    sumHandler ev' env args = r := by
  cases hst : ev env (args.getD 2 Expr.undef) with
  | error e =>
    replace hr : Except.error e = r := by rw [← hr]; simp only [sumHandler, hst]
    subst hr
    have hst' := h _ _ _ hst hnf
    simp only [sumHandler, hst']
  | ok start =>
    have hst' := h _ _ _ hst (by simp)
    cases hsp : ev env (args.getD 3 Expr.undef) with
    | error e =>
      replace hr : Except.error e = r := by
        rw [← hr]; simp only [sumHandler, hst, hsp]
      subst hr
      have hsp' := h _ _ _ hsp hnf
      simp only [sumHandler, hst', hsp']
    | ok stop =>
      have hsp' := h _ _ _ hsp (by simp)
      replace hr : (match start, stop with
          | Expr.int s, Expr.int e =>
            sumLoop ev env (argName (args.getD 1 Expr.undef))
              (args.getD 0 Expr.undef) (e + 1 - s).toNat s (Expr.int 0)
          | _, _ => .error .sumBounds) = r := by
        rw [← hr]; simp only [sumHandler, hst, hsp]
        cases start <;> cases stop <;> rfl
      simp only [sumHandler, hst', hsp']
      cases start <;> cases stop <;> first
        | exact hr
        | exact sumLoop_mono h _ _ _ _ _ _ _ hr hnf

theorem diffHandler_mono {ev ev' : Env → Expr → EvalRes} (h : MonoStepEnv ev ev')
    (env : Env) (args : List Expr) (r : EvalRes)
    (hr : diffHandler ev env args = r) (hnf : r ≠ .error .noFuel) :
    diffHandler ev' env args = r := by
  cases hd : diffE (args.getD 0 Expr.undef) (argName (args.getD 1 Expr.undef)) with
  | error e =>
    replace hr : Except.error e = r := by
      rw [← hr]; simp only [diffHandler]; rw [hd]
    subst hr
    simp only [diffHandler]
    rw [hd]
  | ok d =>
    replace hr : ev env d = r := by
      rw [← hr]; simp only [diffHandler]; rw [hd]
    simp only [diffHandler]
    rw [hd]
    exact h _ _ _ hr hnf

theorem evalE_var_eq (M : MathImpl) (mode : Mode) (env : Env) (name : String)
    (f : ℕ) :
    evalE M (f + 1) mode env (Expr.var name) =
      match env.lookup name with
      | none => .ok (Expr.var name)
      | some b => evalE M f mode env b := rfl

theorem evalE_unary_eq (M : MathImpl) (mode : Mode) (env : Env) (a : Expr)
    (op : UOp) (f : ℕ) :
    evalE M (f + 1) mode env (Expr.unary a op) =
      match evalE M f mode env a with
      | .error err => .error err
      | .ok v => applyUnary (evalE M f mode env) op v := rfl

theorem evalE_binary_eq (M : MathImpl) (mode : Mode) (env : Env) (l r : Expr)
    (op : BOp) (f : ℕ) :
    evalE M (f + 1) mode env (Expr.binary l r op) =
      match evalE M f mode env l with
      | .error err => .error err
      | .ok lv =>
        match evalE M f mode env r with
        | .error err => .error err
        | .ok rv => applyBinary M (evalE M f mode env) op lv rv := rfl

theorem evalE_funcall_eq (M : MathImpl) (mode : Mode) (env : Env)
    (name : String) (args : List Expr) (f : ℕ) :
    evalE M (f + 1) mode env (Expr.funcall name args) =
      callFunction M (fun env' => evalE M f mode env') mode env name args := rfl

theorem callFunction_mono {ev ev' : Env → Expr → EvalRes} (h : MonoStepEnv ev ev')
    (M : MathImpl) (mode : Mode) (env : Env) (name : String) (args : List Expr)
    (r : EvalRes) (hr : callFunction M ev mode env name args = r)
    (hnf : r ≠ .error .noFuel) : callFunction M ev' mode env name args = r := by
  have h1 : MonoStep (ev env) (ev' env) := fun x res hx hnfx => h env x res hx hnfx
  unfold callFunction at hr ⊢
  by_cases hc0 : name = "acos"
  · rw [if_pos hc0] at hr ⊢
    exact wrapTrigArc_mono h1 _ _ _ _ _ hr hnf
  rw [if_neg hc0] at hr ⊢
  by_cases hc1 : name = "asin"
  · rw [if_pos hc1] at hr ⊢
    exact wrapTrigArc_mono h1 _ _ _ _ _ hr hnf
  rw [if_neg hc1] at hr ⊢
  by_cases hc2 : name = "atan"
  · rw [if_pos hc2] at hr ⊢
    exact wrapTrigArc_mono h1 _ _ _ _ _ hr hnf
  rw [if_neg hc2] at hr ⊢
  by_cases hc3 : name = "atan2"
  · rw [if_pos hc3] at hr ⊢
    exact wrapTrigArc_mono h1 _ _ _ _ _ hr hnf
  rw [if_neg hc3] at hr ⊢
  by_cases hc4 : name = "cos"
  · rw [if_pos hc4] at hr ⊢
    exact wrapTrig_mono h1 _ _ _ _ _ hr hnf
  rw [if_neg hc4] at hr ⊢
  by_cases hc5 : name = "diff"
  · rw [if_pos hc5] at hr ⊢
    exact diffHandler_mono h _ _ _ hr hnf
  rw [if_neg hc5] at hr ⊢
  by_cases hc6 : name = "ln"
  · rw [if_pos hc6] at hr ⊢
    exact wrapNumberFunction_mono h1 _ _ _ _ hr hnf
  rw [if_neg hc6] at hr ⊢
  by_cases hc7 : name = "log"
  · rw [if_pos hc7] at hr ⊢
    exact wrapNumberFunction_mono h1 _ _ _ _ hr hnf
  rw [if_neg hc7] at hr ⊢
  by_cases hc8 : name = "max"
  · rw [if_pos hc8] at hr ⊢
    exact wrapNumberFunction_mono h1 _ _ _ _ hr hnf
  rw [if_neg hc8] at hr ⊢
  by_cases hc9 : name = "min"
  · rw [if_pos hc9] at hr ⊢
    exact wrapNumberFunction_mono h1 _ _ _ _ hr hnf
  rw [if_neg hc9] at hr ⊢
  by_cases hc10 : name = "sin"
  · rw [if_pos hc10] at hr ⊢
    exact wrapTrig_mono h1 _ _ _ _ _ hr hnf
  rw [if_neg hc10] at hr ⊢
  by_cases hc11 : name = "sum"
  · rw [if_pos hc11] at hr ⊢
    exact sumHandler_mono h _ _ _ hr hnf
  rw [if_neg hc11] at hr ⊢
  by_cases hc12 : name = "tan"
  · rw [if_pos hc12] at hr ⊢
    exact wrapTrig_mono h1 _ _ _ _ _ hr hnf
  rw [if_neg hc12] at hr ⊢
  exact hr

/-- Fuel monotonicity of evaluation: whenever evaluation at fuel `f` does
not run out of fuel, one more unit of fuel yields the same result. -/
theorem evalE_succ_mono (M : MathImpl) (mode : Mode) :
    ∀ (f : ℕ) (env : Env) (e : Expr),
      evalE M f mode env e ≠ .error .noFuel →
      evalE M (f + 1) mode env e = evalE M f mode env e := by
  intro f
  induction f with
  | zero =>
    intro env e hne
    exact absurd rfl hne
  | succ f ih =>
    intro env e
    have hstep : MonoStep (evalE M f mode env) (evalE M (f + 1) mode env) :=
      fun x r0 hx hnfx => by rw [← hx]; exact ih env x (by rw [hx]; exact hnfx)
    have hstepEnv : MonoStepEnv (fun env' => evalE M f mode env')
        (fun env' => evalE M (f + 1) mode env') := by
      intro env' x r0 hx hnfx
      have hx' : evalE M f mode env' x = r0 := hx
      show evalE M (f + 1) mode env' x = r0
      rw [← hx']
      exact ih env' x (by rw [hx']; exact hnfx)
    cases e with
    | int n => intro _; rfl
    | float v => intro _; rfl
    | ratio n d => intro _; rfl
    | undef => intro _; rfl
    | var name =>
      rw [evalE_var_eq, evalE_var_eq]
      cases hl : env.lookup name with
      | none => intro _; rfl
      | some b =>
        intro hne
        exact ih env b hne
    | unary a op =>
      rw [evalE_unary_eq, evalE_unary_eq]
      cases ha : evalE M f mode env a with
      | error err =>
        intro hne
        have hane : evalE M f mode env a ≠ .error .noFuel := by
          rw [ha]; exact hne
        rw [ih env a hane, ha]
      | ok v =>
        intro hne
        have hane : evalE M f mode env a ≠ .error .noFuel := by rw [ha]; simp
        rw [ih env a hane, ha]
        show applyUnary (evalE M (f + 1) mode env) op v = _
        exact applyUnary_mono hstep op v _ rfl hne
    | binary l rr op =>
      rw [evalE_binary_eq, evalE_binary_eq]
      cases hl : evalE M f mode env l with
      | error err =>
        intro hne
        have hlne : evalE M f mode env l ≠ .error .noFuel := by
          rw [hl]; exact hne
        rw [ih env l hlne, hl]
      | ok lv =>
        cases hr2 : evalE M f mode env rr with
        | error err =>
          intro hne
          have hlne : evalE M f mode env l ≠ .error .noFuel := by rw [hl]; simp
          have hrne : evalE M f mode env rr ≠ .error .noFuel := by
            rw [hr2]; exact hne
          rw [ih env l hlne, hl, ih env rr hrne, hr2]
        | ok rv =>
          intro hne
          have hlne : evalE M f mode env l ≠ .error .noFuel := by rw [hl]; simp
          have hrne : evalE M f mode env rr ≠ .error .noFuel := by rw [hr2]; simp
          rw [ih env l hlne, hl, ih env rr hrne, hr2]
          show applyBinary M (evalE M (f + 1) mode env) op lv rv = _
          exact applyBinary_mono hstep M op lv rv _ rfl hne
    | funcall name args =>
      intro hne
      rw [evalE_funcall_eq, evalE_funcall_eq]
      exact callFunction_mono hstepEnv M mode env name args _ rfl
        (by rw [← evalE_funcall_eq]; exact hne)

/-- Fuel monotonicity of evaluation, for any larger fuel: a result other
than fuel exhaustion is stable under extra fuel. -/
theorem evalE_mono (M : MathImpl) (mode : Mode) {f f' : ℕ} (hle : f ≤ f')
    (env : Env) (e : Expr) (res : EvalRes)
    (hr : evalE M f mode env e = res) (hnf : res ≠ .error .noFuel) :
    evalE M f' mode env e = res := by
  induction f', hle using Nat.le_induction with
  | base => exact hr
  | succ n hn ih =>
    rw [evalE_succ_mono M mode n env e (by rw [ih]; exact hnf)]
    exact ih

/-- Every binary numeric kernel returns a Float when either operand is a
Float (`^` always returns a Float). -/
theorem binaryNumeric_float (M : MathImpl) (op : BOp) (l r : Expr)
    (hf : l.isFloat = true ∨ r.isFloat = true) :
    ∃ q, binaryNumeric M op l r = .float q := by
  have hb : (l.isFloat || r.isFloat) = true := by
    rcases hf with h | h <;> simp [h]
  cases op with
  | add =>
    refine ⟨FVal.fadd l.asFloat r.asFloat, ?_⟩
    simp only [binaryNumeric, addSubNumerics, hb, if_true]
  | sub =>
    refine ⟨FVal.fsub l.asFloat r.asFloat, ?_⟩
    simp only [binaryNumeric, addSubNumerics, hb, if_true]
    rfl
  | mul =>
    refine ⟨FVal.fmul l.asFloat r.asFloat, ?_⟩
    simp only [binaryNumeric, multiplyNumerics, hb, if_true]
  | div =>
    refine ⟨FVal.fdiv l.asFloat r.asFloat, ?_⟩
    simp only [binaryNumeric, divideNumerics, hb, if_true]
  | pow => exact ⟨M.powF l.asFloat r.asFloat, rfl⟩

/-- C5 (amended): along an arithmetic chain of `+ - * / ^` whose operands
all evaluate to numeric values, a Float operand anywhere makes the whole
chain evaluate to a Float (with symbolic operands the identity rewrites can
return non-Float results instead, see the counterexample). -/
theorem C5_amended (M : MathImpl) (mode : Mode) (env : Env) (e : Expr)
    (h : FloatChain M mode env e) :
    ∃ (q : FVal) (f : ℕ), evalE M f mode env e = .ok (.float q) := by
  induction h with
  | ofFloat e q f h => exact ⟨q, f, h⟩
  | left l r v op f hl hr hv ih =>
    obtain ⟨ql, fl, hql⟩ := ih
    have h1 : evalE M (max fl f + 1) mode env l = .ok (.float ql) :=
      evalE_mono M mode (Nat.le_succ_of_le (le_max_left _ _)) env l _ hql (by simp)
    have h2 : evalE M (max fl f + 1) mode env r = .ok v :=
      evalE_mono M mode (Nat.le_succ_of_le (le_max_right _ _)) env r _ hr (by simp)
    obtain ⟨q, hq⟩ := binaryNumeric_float M op (.float ql) v (Or.inl rfl)
    refine ⟨q, max fl f + 1 + 1, ?_⟩
    rw [evalE_binary_eq, h1, h2]
    show applyBinary M (evalE M (max fl f + 1) mode env) op (.float ql) v = _
    have e1 : evalE M (max fl f + 1) mode env (Expr.float ql) = .ok (.float ql) :=
      evalE_numeric_leaf M mode env (Expr.float ql) rfl _
    have e2 : evalE M (max fl f + 1) mode env v = .ok v :=
      evalE_numeric_leaf M mode env v hv _
    unfold applyBinary
    rw [e1, e2]
    show (if (Expr.float ql).isNumeric && v.isNumeric then
        Except.ok (binaryNumeric M op (.float ql) v)
        else binarySymbolic op (.float ql) v) = _
    rw [hv, hq]
    rfl
  | right l r v op f hl hv hr ih =>
    obtain ⟨qr, fr, hqr⟩ := ih
    have h1 : evalE M (max fr f + 1) mode env l = .ok v :=
      evalE_mono M mode (Nat.le_succ_of_le (le_max_right _ _)) env l _ hl (by simp)
    have h2 : evalE M (max fr f + 1) mode env r = .ok (.float qr) :=
      evalE_mono M mode (Nat.le_succ_of_le (le_max_left _ _)) env r _ hqr (by simp)
    obtain ⟨q, hq⟩ := binaryNumeric_float M op v (.float qr) (Or.inr rfl)
    refine ⟨q, max fr f + 1 + 1, ?_⟩
    rw [evalE_binary_eq, h1, h2]
    show applyBinary M (evalE M (max fr f + 1) mode env) op v (.float qr) = _
    have e1 : evalE M (max fr f + 1) mode env v = .ok v :=
      evalE_numeric_leaf M mode env v hv _
    have e2 : evalE M (max fr f + 1) mode env (Expr.float qr) = .ok (.float qr) :=
      evalE_numeric_leaf M mode env (Expr.float qr) rfl _
    unfold applyBinary
    rw [e1, e2]
    show (if v.isNumeric && (Expr.float qr).isNumeric then
        Except.ok (binaryNumeric M op v (.float qr))
        else binarySymbolic op v (.float qr)) = _
    rw [hv, hq]
    rfl

/-- C5 amended, witness: the chain `2.5 * 3` (one Float operand, one
Integer operand) evaluates to a Float. -/
theorem C5_amended_witness :
    ∃ (q : FVal) (f : ℕ),
      evalE M0 f .radians []
        (Expr.binary (Expr.float (FVal.rat (5/2))) (Expr.int 3) .mul) =
        .ok (.float q) :=
  C5_amended M0 .radians [] _
    (FloatChain.left _ _ _ .mul 1
      (FloatChain.ofFloat _ (FVal.rat (5/2)) 1 rfl) rfl rfl)

theorem isDigitC_digitChar (k : ℕ) : isDigitC (digitChar k) = true := by
  unfold digitChar
  rcases k with _|_|_|_|_|_|_|_|_|k <;> rfl

theorem digitVal_digitChar (k : ℕ) (h : k < 10) : digitVal (digitChar k) = k := by
  unfold digitChar
  interval_cases k <;> rfl

theorem digit_char_props (c : Char) (h : isDigitC c = true) :
    isWhitespaceC c = false ∧ isOperatorC c = false ∧ isPunctuationC c = false ∧
    isNumberStartC c = true ∧ (c = '.') = False ∧ (c = 'e') = False ∧
    (c = 'E') = False ∧ (c = '-') = False ∧ (c = '+') = False := by
  simp only [isDigitC, Bool.or_eq_true, decide_eq_true_eq] at h
  rcases h with ((((((((rfl|rfl)|rfl)|rfl)|rfl)|rfl)|rfl)|rfl)|rfl)|rfl <;> decide

theorem natToDigits_ne_nil (m : ℕ) : natToDigits m ≠ [] := by
  rw [natToDigits]
  split <;> simp

theorem natToDigits_all_digits (m : ℕ) :
    ∀ c ∈ natToDigits m, isDigitC c = true := by
  induction m using Nat.strong_induction_on with
  | _ m ih =>
    rw [natToDigits]
    split
    · intro c hc
      simp only [List.mem_singleton] at hc
      subst hc
      exact isDigitC_digitChar m
    · intro c hc
      rw [List.mem_append] at hc
      rcases hc with hc | hc
      · exact ih (m / 10) (by omega) c hc
      · simp only [List.mem_singleton] at hc
        subst hc
        exact isDigitC_digitChar (m % 10)

theorem parseIntDigits_append (xs : List Char) (c : Char) :
    parseIntDigits (xs ++ [c]) = 10 * parseIntDigits xs + digitVal c := by
  unfold parseIntDigits
  rw [List.foldl_append]
  rfl

theorem parseIntDigits_natToDigits (m : ℕ) :
    parseIntDigits (natToDigits m) = m := by
  induction m using Nat.strong_induction_on with
  | _ m ih =>
    rw [natToDigits]
    split
    · next h =>
      show parseIntDigits [digitChar m] = m
      unfold parseIntDigits
      simp [digitVal_digitChar m h]
    · next h =>
      rw [parseIntDigits_append, ih (m / 10) (by omega),
        digitVal_digitChar (m % 10) (by omega)]
      omega

theorem jsGcd_eq_gcd (a b : ℕ) : jsGcd a b = Nat.gcd b a := by
  induction b using Nat.strong_induction_on generalizing a with
  | _ b ih =>
    rw [jsGcd]
    split
    · next h => subst h; simp
    · next h =>
      rw [ih (a % b) (Nat.mod_lt _ (Nat.pos_of_ne_zero h)) b, Nat.gcd_rec b a]

/-- `reduce()` is the identity on a ratio already in the normal form that
evaluation produces (coprime, denominator at least 2, nonzero numerator). -/
theorem reduceRatio_normal (n d : ℤ) (hg : Int.gcd n d = 1) (hd : 2 ≤ d)
    (hn : n ≠ 0) : reduceRatio n d = Expr.ratio n d := by
  have hg' : jsGcd n.natAbs d.natAbs = 1 := by
    rw [jsGcd_eq_gcd, Nat.gcd_comm]
    exact hg
  have hsd : jsSign d = 1 := by
    unfold jsSign
    exact Int.sign_eq_one_of_pos (by omega)
  have hB : ((d.natAbs : ℤ)) = d := by omega
  have hD : ¬(d.natAbs = 1) := by omega
  have hnum : (if jsSign n ≠ jsSign d then -((n.natAbs : ℤ))
      else ((n.natAbs : ℤ))) = n := by
    rcases lt_or_gt_of_ne hn with hneg | hpos
    · have hsn : jsSign n = -1 := by
        unfold jsSign
        exact Int.sign_eq_neg_one_of_neg hneg
      rw [hsn, hsd, if_pos (by decide)]
      omega
    · have hsn : jsSign n = 1 := by
        unfold jsSign
        exact Int.sign_eq_one_of_pos hpos
      rw [hsn, hsd, if_neg (by decide)]
      omega
  simp only [reduceRatio, hg', Nat.div_one, hnum]
  rw [if_neg one_ne_zero, if_neg hn, if_neg hD, if_pos (by simp [hB])]

theorem tokenizeLoop_none_digit (c : Char) (hc : isDigitC c = true)
    (l : List Char) (i : ℕ) (st : LexSt) (hst : st.state = .none) :
    tokenizeLoop (c :: l) i st =
      tokenizeLoop l (i + 1)
        { st with state := .number, current := [c], start := i,
                  seenDecimal := false, seenE := false, seenSign := false } := by
  obtain ⟨hw, ho, hp, hns, hdot, -, -, -, -⟩ := digit_char_props c hc
  simp only [tokenizeLoop, hst]
  rw [if_neg (by simp [hw]), if_neg (by simp [ho]), if_neg (by simp [hp]),
    if_pos (by simp [hns])]
  simp only [show (decide (c = '.')) = false by simp [hdot]]

theorem tokenizeLoop_number_digit (c : Char) (hc : isDigitC c = true)
    (l : List Char) (i : ℕ) (st : LexSt) (hst : st.state = .number) :
    tokenizeLoop (c :: l) i st =
      tokenizeLoop l (i + 1)
        { st with current := st.current ++ [c], seenSign := st.seenE } := by
  simp only [tokenizeLoop, hst]
  rw [if_pos (by simp [hc])]

theorem tokenizeLoop_nil_number (i : ℕ) (st : LexSt) (hst : st.state = .number) :
    tokenizeLoop [] i st = .ok (finishNumber st (i - 1)).tokens := by
  simp only [tokenizeLoop, hst]

theorem tokenizeLoop_number_slash (l : List Char) (i : ℕ) (st : LexSt)
    (hst : st.state = .number) :
    tokenizeLoop ('/' :: l) i st =
      tokenizeLoop l (i + 1)
        { emitOperator (finishNumber st st.start) '/' i with state := .none } := by
  simp only [tokenizeLoop, hst]
  rw [if_neg (by decide), if_neg (by decide), if_neg (by decide),
    if_neg (by decide),
    if_neg (by simp [show (('/' : Char) = 'e') = False by decide,
      show (('/' : Char) = 'E') = False by decide]),
    if_neg (by simp [show (('/' : Char) = '-') = False by decide,
      show (('/' : Char) = '+') = False by decide]),
    if_pos (by decide)]

theorem tokenizeLoop_none_minus (l : List Char) (i : ℕ) (st : LexSt)
    (hst : st.state = .none) (hm : st.minusIsUnary = true) :
    tokenizeLoop ('-' :: l) i st =
      tokenizeLoop l (i + 1)
        { st with tokens := st.tokens ++ [Token.operator '~' i .right 5] } := by
  simp only [tokenizeLoop, hst]
  rw [if_neg (by decide), if_pos (by decide), if_pos ⟨by trivial, by simp [hm]⟩]

theorem tokenizeLoop_digits_run (ds : List Char)
    (hds : ∀ c ∈ ds, isDigitC c = true) :
    ∀ (rest : List Char) (i : ℕ) (st : LexSt), st.state = .number →
      st.seenE = false → st.seenSign = false →
      tokenizeLoop (ds ++ rest) i st =
        tokenizeLoop rest (i + ds.length)
          { st with current := st.current ++ ds } := by
  induction ds with
  | nil =>
    intro rest i st _ _ _
    simp only [List.nil_append, List.length_nil, Nat.add_zero, List.append_nil]
  | cons c ds ih =>
    intro rest i st hst hE hsg
    obtain ⟨s0, cur, sta, miu, sd, se, ss, tk⟩ := st
    simp only at hst hE hsg
    subst hst; subst hE; subst hsg
    rw [List.cons_append, tokenizeLoop_number_digit c (hds c (by simp)) _ i _ rfl]
    rw [ih (fun x hx => hds x (by simp [hx])) rest (i + 1) _ rfl rfl rfl]
    congr 1
    · simp only [List.length_cons]
      omega
    · simp

theorem tokenizeLoop_natToDigits (m : ℕ) (rest : List Char) (i : ℕ) (st : LexSt)
    (hst : st.state = .none) :
    tokenizeLoop (natToDigits m ++ rest) i st =
      tokenizeLoop rest (i + (natToDigits m).length)
        { st with state := .number, current := natToDigits m, start := i,
                  seenDecimal := false, seenE := false, seenSign := false } := by
  cases hd : natToDigits m with
  | nil => exact absurd hd (natToDigits_ne_nil m)
  | cons c cs =>
    have hall := natToDigits_all_digits m
    rw [hd] at hall
    rw [List.cons_append, tokenizeLoop_none_digit c (hall c (by simp)) _ i st hst]
    rw [tokenizeLoop_digits_run cs (fun x hx => hall x (by simp [hx]))
      rest (i + 1) _ rfl rfl rfl]
    congr 1
    simp only [List.length_cons]
    omega

theorem finishNumber_digits (st : LexSt) (pos : ℕ) (h : st.current ≠ [])
    (hall : st.current.all isDigitC = true) :
    finishNumber st pos =
      { st with minusIsUnary := false,
                tokens := st.tokens ++
                  [Token.integer st.current pos ((parseIntDigits st.current : ℕ) : ℤ)] } := by
  unfold finishNumber
  rw [if_pos ⟨h, hall⟩]

theorem emitOperator_slash (st : LexSt) (i : ℕ) :
    emitOperator st '/' i =
      { st with tokens := st.tokens ++ [Token.operator '/' i .left 3],
                minusIsUnary := true } := by
  unfold emitOperator
  rw [if_neg (fun hcon => absurd hcon.1 (by decide)), if_pos (by decide)]
  rfl

theorem natToDigits_all_bool (m : ℕ) : (natToDigits m).all isDigitC = true := by
  rw [List.all_eq_true]
  intro x hx
  exact natToDigits_all_digits m x hx

theorem tokenizeLoop_natToDigits_nil (m : ℕ) (i : ℕ) (st : LexSt)
    (hst : st.state = .none) :
    tokenizeLoop (natToDigits m) i st =
      .ok ((finishNumber
        { st with state := .number, current := natToDigits m, start := i,
                  seenDecimal := false, seenE := false, seenSign := false }
        (i + (natToDigits m).length - 1)).tokens) := by
  have h := tokenizeLoop_natToDigits m [] i st hst
  rw [List.append_nil] at h
  rw [h, tokenizeLoop_nil_number _ _ rfl]

theorem tokenize_int_digits (m : ℕ) :
    tokenize (natToDigits m) =
      .ok [Token.integer (natToDigits m) ((natToDigits m).length - 1) (m : ℤ)] := by
  unfold tokenize
  rw [tokenizeLoop_natToDigits_nil m]
  rw [finishNumber_digits]
  · simp [parseIntDigits_natToDigits]
  all_goals first
    | rfl
    | apply natToDigits_ne_nil
    | apply natToDigits_all_bool

theorem tokenize_neg_int_digits (m : ℕ) :
    tokenize ('-' :: natToDigits m) =
      .ok [Token.operator '~' 0 .right 5,
           Token.integer (natToDigits m) ((natToDigits m).length) (m : ℤ)] := by
  unfold tokenize
  rw [tokenizeLoop_none_minus]
  rw [tokenizeLoop_natToDigits_nil m]
  rw [finishNumber_digits]
  · simp [parseIntDigits_natToDigits]
  all_goals first
    | rfl
    | apply natToDigits_ne_nil
    | apply natToDigits_all_bool

theorem tokenize_ratio_digits (a b : ℕ) :
    tokenize (natToDigits a ++ '/' :: natToDigits b) =
      .ok [Token.integer (natToDigits a) 0 (a : ℤ),
           Token.operator '/' (natToDigits a).length .left 3,
           Token.integer (natToDigits b)
             ((natToDigits a).length + 1 + (natToDigits b).length - 1) (b : ℤ)] := by
  unfold tokenize
  rw [tokenizeLoop_natToDigits]
  rw [tokenizeLoop_number_slash]
  rw [tokenizeLoop_natToDigits_nil b]
  rw [finishNumber_digits]
  rw [emitOperator_slash]
  rw [finishNumber_digits]
  · simp [parseIntDigits_natToDigits]
  all_goals first
    | rfl
    | apply natToDigits_ne_nil
    | apply natToDigits_all_bool

theorem tokenize_neg_ratio_digits (a b : ℕ) :
    tokenize ('-' :: (natToDigits a ++ '/' :: natToDigits b)) =
      .ok [Token.operator '~' 0 .right 5,
           Token.integer (natToDigits a) 1 (a : ℤ),
           Token.operator '/' (1 + (natToDigits a).length) .left 3,
           Token.integer (natToDigits b)
             (1 + (natToDigits a).length + 1 + (natToDigits b).length - 1) (b : ℤ)] := by
  unfold tokenize
  rw [tokenizeLoop_none_minus]
  rw [tokenizeLoop_natToDigits]
  rw [tokenizeLoop_number_slash]
  rw [tokenizeLoop_natToDigits_nil b]
  rw [finishNumber_digits]
  rw [emitOperator_slash]
  rw [finishNumber_digits]
  · simp [parseIntDigits_natToDigits]
  all_goals first
    | rfl
    | apply natToDigits_ne_nil
    | apply natToDigits_all_bool

theorem shunt_single_int (t : List Char) (p : ℕ) (v : ℤ) :
    shuntToRpn [Token.integer t p v] = .ok [Token.integer t p v] := rfl

theorem shunt_neg_int (t : List Char) (p q : ℕ) (v : ℤ) :
    shuntToRpn [Token.operator '~' p .right 5, Token.integer t q v] =
      .ok [Token.integer t q v, Token.operator '~' p .right 5] := rfl

theorem shunt_ratio (t1 t2 : List Char) (p1 p2 p3 : ℕ) (a b : ℤ) :
    shuntToRpn [Token.integer t1 p1 a, Token.operator '/' p2 .left 3,
      Token.integer t2 p3 b] =
      .ok [Token.integer t1 p1 a, Token.integer t2 p3 b,
        Token.operator '/' p2 .left 3] := rfl

theorem shunt_neg_ratio (t1 t2 : List Char) (p0 p1 p2 p3 : ℕ) (a b : ℤ) :
    shuntToRpn [Token.operator '~' p0 .right 5, Token.integer t1 p1 a,
      Token.operator '/' p2 .left 3, Token.integer t2 p3 b] =
      .ok [Token.integer t1 p1 a, Token.operator '~' p0 .right 5,
        Token.integer t2 p3 b, Token.operator '/' p2 .left 3] := rfl

theorem rpn_single_int (t : List Char) (p : ℕ) (v : ℤ) :
    rpnToExpression [Token.integer t p v] [] = .ok (Expr.int v) := rfl

theorem rpn_neg_int (t : List Char) (p q : ℕ) (v : ℤ) :
    rpnToExpression [Token.integer t q v, Token.operator '~' p .right 5] [] =
      .ok (Expr.unary (Expr.int v) .neg) := rfl

theorem rpn_ratio (t1 t2 : List Char) (p1 p2 p3 : ℕ) (a b : ℤ) :
    rpnToExpression [Token.integer t1 p1 a, Token.integer t2 p3 b,
      Token.operator '/' p2 .left 3] [] =
      .ok (Expr.binary (Expr.int a) (Expr.int b) .div) := rfl

theorem rpn_neg_ratio (t1 t2 : List Char) (p0 p1 p2 p3 : ℕ) (a b : ℤ) :
    rpnToExpression [Token.integer t1 p1 a, Token.operator '~' p0 .right 5,
      Token.integer t2 p3 b, Token.operator '/' p2 .left 3] [] =
      .ok (Expr.binary (Expr.unary (Expr.int a) .neg) (Expr.int b) .div) := rfl

theorem evalE_int (M : MathImpl) (mode : Mode) (env : Env) (n : ℤ) (f : ℕ) :
    evalE M (f + 1) mode env (Expr.int n) = .ok (Expr.int n) := rfl

theorem evalE_neg_int (M : MathImpl) (mode : Mode) (env : Env) (n : ℤ) (f : ℕ) :
    evalE M (f + 2) mode env (Expr.unary (Expr.int n) .neg) =
      .ok (Expr.int (-n)) := rfl

theorem evalE_div_ints (M : MathImpl) (mode : Mode) (env : Env) (a b : ℤ)
    (f : ℕ) :
    evalE M (f + 2) mode env (Expr.binary (Expr.int a) (Expr.int b) .div) =
      .ok (reduceRatio (a * 1) (1 * b)) := rfl

theorem evalE_div_neg_ints (M : MathImpl) (mode : Mode) (env : Env) (a b : ℤ)
    (f : ℕ) :
    evalE M (f + 3) mode env
        (Expr.binary (Expr.unary (Expr.int a) .neg) (Expr.int b) .div) =
      .ok (reduceRatio (-a * 1) (1 * b)) := rfl

theorem parseString_eq (s : String) (tk rpn : List Token) (e : Expr)
    (h1 : tokenize s.data = .ok tk) (h2 : shuntToRpn tk = .ok rpn)
    (h3 : rpnToExpression rpn [] = .ok e) : parseString s = .ok e := by
  unfold parseString
  rw [h1]
  show (shuntToRpn tk >>= fun rpn' => rpnToExpression rpn' []) = .ok e
  rw [h2]
  show rpnToExpression rpn [] = .ok e
  exact h3

theorem evalString_eq (M : MathImpl) (fuel : ℕ) (mode : Mode) (uv : Env)
    (s : String) (e v : Expr) (hp : parseString s = .ok e)
    (he : evalE M fuel mode (uv ++ defaultVariables M) e = .ok v) :
    evalString M fuel mode uv s = .ok v := by
  unfold evalString
  rw [hp]
  show (match evalE M fuel mode (uv ++ defaultVariables M) e with
        | Except.error err => Except.error (CalcErr.evalErr err)
        | Except.ok v' => (Except.ok v' : Except CalcErr Expr)) = .ok v
  rw [he]

/-- C9 (amended): the textual round-trip
`evaluate(evaluate(text).toString())` restores the value for purely numeric
texts whose result is exact and prints as plain digits: every Integer
result with `|n| < 2^53` (there the source's f64 value is exact and JS
prints the plain decimal form, not the exponential form it switches to at
1e21), every Ratio result in the normal form evaluation produces (coprime,
denominator at least 2, nonzero numerator, both components below `2^53`),
and the reachable `Ratio(-1,0)`.  It fails for Float Infinity/NaN and for
`Ratio(1,0)`, see the counterexample; finite Float results and Integers at
or above `2^53` are not settled here. -/
theorem C9_amended (M : MathImpl) :
    (∀ n : ℤ, n.natAbs < 2 ^ 53 →
      evalString M 3 .radians [] (Expr.int n).toStr = .ok (Expr.int n)) ∧
    (∀ n d : ℤ, n.natAbs < 2 ^ 53 → d.natAbs < 2 ^ 53 →
      Int.gcd n d = 1 → 2 ≤ d → n ≠ 0 →
      evalString M 3 .radians [] (Expr.ratio n d).toStr = .ok (Expr.ratio n d)) ∧
    evalString M 3 .radians [] (Expr.ratio (-1) 0).toStr = .ok (Expr.ratio (-1) 0) := by
  refine ⟨?_, ?_, ?_⟩
  · intro n _hsafe
    rcases le_or_lt 0 n with hpos | hneg
    · have hdata : ((Expr.int n).toStr).data = natToDigits n.natAbs := by
        show (intToString n).data = _
        rw [intToString, if_neg (by omega)]
      have hcast : ((n.natAbs : ℤ)) = n := by omega
      have h := evalString_eq M 3 .radians [] _ _ _
        (parseString_eq _ _ _ _ (by rw [hdata]; exact tokenize_int_digits n.natAbs)
          (shunt_single_int _ _ _) (rpn_single_int _ _ _))
        (evalE_int M .radians _ _ 2)
      rw [h, hcast]
    · have hdata : ((Expr.int n).toStr).data = '-' :: natToDigits n.natAbs := by
        show (intToString n).data = _
        rw [intToString, if_pos (by omega)]
        rfl
      have hcast : (-((n.natAbs : ℤ))) = n := by omega
      have h := evalString_eq M 3 .radians [] _ _ _
        (parseString_eq _ _ _ _
          (by rw [hdata]; exact tokenize_neg_int_digits n.natAbs)
          (shunt_neg_int _ _ _ _) (rpn_neg_int _ _ _ _))
        (evalE_neg_int M .radians _ _ 1)
      rw [h, hcast]
  · intro n d _hnsafe _hdsafe hg hd hn
    have hd1 : (intToString d).data = natToDigits d.natAbs := by
      rw [intToString, if_neg (by omega)]
    have hcd : ((d.natAbs : ℤ)) = d := by omega
    rcases lt_or_gt_of_ne hn with hneg | hpos
    · have hn1 : (intToString n).data = '-' :: natToDigits n.natAbs := by
        rw [intToString, if_pos (by omega)]
        rfl
      have hcn : (-((n.natAbs : ℤ))) = n := by omega
      have hdata : ((Expr.ratio n d).toStr).data =
          '-' :: (natToDigits n.natAbs ++ '/' :: natToDigits d.natAbs) := by
        have base : ((Expr.ratio n d).toStr).data =
            ((intToString n).data ++ ['/']) ++ (intToString d).data := rfl
        rw [base, hn1, hd1]
        simp
      refine evalString_eq M 3 .radians [] _ _ _
        (parseString_eq _ _ _ _
          (by rw [hdata]; exact tokenize_neg_ratio_digits n.natAbs d.natAbs)
          (shunt_neg_ratio _ _ _ _ _ _ _ _) (rpn_neg_ratio _ _ _ _ _ _ _ _)) ?_
      rw [evalE_div_neg_ints M .radians _ _ _ 0]
      rw [show (-((n.natAbs : ℤ)) * 1) = n by omega,
        show ((1 : ℤ) * (d.natAbs : ℤ)) = d by omega,
        reduceRatio_normal n d hg hd hn]
    · have hn1 : (intToString n).data = natToDigits n.natAbs := by
        rw [intToString, if_neg (by omega)]
      have hcn : ((n.natAbs : ℤ)) = n := by omega
      have hdata : ((Expr.ratio n d).toStr).data =
          natToDigits n.natAbs ++ '/' :: natToDigits d.natAbs := by
        have base : ((Expr.ratio n d).toStr).data =
            ((intToString n).data ++ ['/']) ++ (intToString d).data := rfl
        rw [base, hn1, hd1]
        simp
      refine evalString_eq M 3 .radians [] _ _ _
        (parseString_eq _ _ _ _
          (by rw [hdata]; exact tokenize_ratio_digits n.natAbs d.natAbs)
          (shunt_ratio _ _ _ _ _ _ _) (rpn_ratio _ _ _ _ _ _ _)) ?_
      rw [evalE_div_ints M .radians _ _ _ 1]
      rw [show (((n.natAbs : ℤ)) * 1) = n by omega,
        show ((1 : ℤ) * (d.natAbs : ℤ)) = d by omega,
        reduceRatio_normal n d hg hd hn]
  · with_unfolding_all rfl

/-- C9 amended, witness: the Integer 7 and the normal-form Ratio -3/4
round-trip through their printed forms. -/
theorem C9_amended_witness :
    evalString M0 3 .radians [] (Expr.int 7).toStr = .ok (Expr.int 7) ∧
    evalString M0 3 .radians [] (Expr.ratio (-3) 4).toStr = .ok (Expr.ratio (-3) 4) :=
  ⟨(C9_amended M0).1 7 (by norm_num),
   (C9_amended M0).2.1 (-3) 4 (by norm_num) (by norm_num)
     (by decide) (by decide) (by decide)⟩

theorem callFunction_sin (M : MathImpl) (ev : Env → Expr → EvalRes)
    (mode : Mode) (env : Env) (args : List Expr) :
    callFunction M ev mode env "sin" args =
      wrapTrig (ev env) "sin" (fun l => M.sinF (l.headD .nan)) mode args := by
  with_unfolding_all rfl

theorem wrapTrig_degrees_noFuel (ev : Expr → EvalRes) (name : String)
    (fn : List FVal → FVal) (a : Expr) (rest' : List Expr)
    (h : ev (Expr.binary a DegreesToRadians .mul) = .error .noFuel) :
    wrapTrig ev name fn .degrees (a :: rest') = .error .noFuel := by
  have hargs : evalArgs (fun x => ev (Expr.binary x DegreesToRadians .mul))
      (a :: rest') = .error .noFuel := by
    show (match ev (Expr.binary a DegreesToRadians .mul) with
          | Except.error e => (Except.error e : Except EvalErr (List Expr))
          | Except.ok v =>
            match evalArgs (fun x => ev (Expr.binary x DegreesToRadians .mul))
                rest' with
            | Except.error e => Except.error e
            | Except.ok vs => Except.ok (v :: vs)) = Except.error EvalErr.noFuel
    rw [h]
  show (match evalArgs (fun x => ev (Expr.binary x DegreesToRadians .mul))
        (a :: rest') with
        | Except.error e => (Except.error e : EvalRes)
        | Except.ok evaluatedArgs =>
          if evaluatedArgs.all Expr.isNumeric then
            Except.ok (Expr.float (fn (evaluatedArgs.map Expr.asFloat)))
          else Except.ok (Expr.funcall name evaluatedArgs)) =
      Except.error EvalErr.noFuel
  rw [hargs]

theorem piTrigEnv_diverges (M : MathImpl) (rest : Env) : ∀ f,
    evalE M f .degrees (("pi", Expr.funcall "sin" [Expr.int 1]) :: rest)
        (Expr.var "pi") = .error .noFuel ∧
    evalE M f .degrees (("pi", Expr.funcall "sin" [Expr.int 1]) :: rest)
        (Expr.funcall "sin" [Expr.int 1]) = .error .noFuel ∧
    evalE M f .degrees (("pi", Expr.funcall "sin" [Expr.int 1]) :: rest)
        (Expr.binary (Expr.int 1) DegreesToRadians .mul) = .error .noFuel := by
  intro f
  induction f using Nat.strong_induction_on with
  | _ f ih =>
    cases f with
    | zero => exact ⟨rfl, rfl, rfl⟩
    | succ f =>
      refine ⟨?_, ?_, ?_⟩
      · rw [evalE_var_eq]
        have hl : ((("pi", Expr.funcall "sin" [Expr.int 1]) :: rest).lookup
            "pi") = some (Expr.funcall "sin" [Expr.int 1]) := by
          simp [List.lookup]
        rw [hl]
        exact (ih f (Nat.lt_succ_self f)).2.1
      · rw [evalE_funcall_eq, callFunction_sin]
        exact wrapTrig_degrees_noFuel _ _ _ _ _ ((ih f (Nat.lt_succ_self f)).2.2)
      · cases f with
        | zero => rfl
        | succ g =>
          have hDtR : evalE M (g + 1) .degrees
              (("pi", Expr.funcall "sin" [Expr.int 1]) :: rest)
              DegreesToRadians = .error .noFuel := by
            show evalE M (g + 1) .degrees
                (("pi", Expr.funcall "sin" [Expr.int 1]) :: rest)
                (Expr.binary (Expr.var "pi") (Expr.float (FVal.rat 180)) .div) =
              .error .noFuel
            rw [evalE_binary_eq, (ih g (by omega)).1]
          rw [evalE_binary_eq]
          show (match evalE M (g + 1) .degrees
                (("pi", Expr.funcall "sin" [Expr.int 1]) :: rest)
                DegreesToRadians with
              | Except.error err => (Except.error err : EvalRes)
              | Except.ok rv =>
                applyBinary M (evalE M (g + 1) .degrees
                  (("pi", Expr.funcall "sin" [Expr.int 1]) :: rest)) .mul
                  (Expr.int 1) rv) = Except.error EvalErr.noFuel
          rw [hDtR]

theorem xSelf_diverges (M : MathImpl) (mode : Mode) (rest : Env) : ∀ f,
    evalE M f mode (("x", Expr.var "x") :: rest) (Expr.var "x") =
      .error .noFuel := by
  intro f
  induction f with
  | zero => rfl
  | succ f ih =>
    rw [evalE_var_eq]
    have hl : ((("x", Expr.var "x") :: rest).lookup "x") =
        some (Expr.var "x") := by
      simp [List.lookup]
    rw [hl]
    exact ih

/-- C10, counterexample: the claimed equivalence between termination and
environment acyclicity fails in both directions.  (i) Acyclicity is not
sufficient: bind `pi` to `sin(1)` — an expression that refers to no
variable at all, so the binding relation is trivially acyclic — and in
Degrees mode evaluating the variable `pi` exhausts every amount of fuel,
because the trig wrapper multiplies its argument by the tree `pi/180` and
evaluates that product under the same environment, re-entering the `pi`
binding forever.  (ii) Acyclicity is not necessary: under the cyclic
environment binding `x` to itself — evaluating `x` provably exhausts every
amount of fuel — the literal `1` still evaluates to `Integer 1`. -/
theorem C10_counterexample :
    (∀ f, evalE M0 f .degrees [("pi", Expr.funcall "sin" [Expr.int 1])]
        (Expr.var "pi") = .error .noFuel) ∧
    (∀ f, evalE M0 f .radians [("x", Expr.var "x")] (Expr.var "x") =
        .error .noFuel) ∧
    evalE M0 1 .radians [("x", Expr.var "x")] (Expr.int 1) =
      .ok (Expr.int 1) :=
  ⟨fun f => (piTrigEnv_diverges M0 [] f).1,
   xSelf_diverges M0 .radians [],
   rfl⟩

/-- C10 (amended): variable lookup recursively re-evaluates the bound
expression under the same environment, so forcing a directly
self-referential binding never terminates (for every fuel bound, evaluating
`x` under an environment binding `x := x` reports fuel exhaustion); but
termination does not hold exactly under the acyclicity precondition, in
either direction.  Acyclicity is not sufficient: in Degrees mode the trig
wrappers insert the tree `pi/180` and evaluate it under the same
environment, so with `pi` bound to `sin(1)` — a binding that refers to no
variable, making the binding relation acyclic — evaluating `pi` never
terminates.  Acyclicity is not necessary: under the cyclic `x := x`
environment, the literal `1`, which never forces the cycle, still evaluates
to `Integer 1` with any positive fuel. -/
theorem C10_amended (M : MathImpl) (rest : Env) :
    (∀ f, evalE M f .degrees (("pi", Expr.funcall "sin" [Expr.int 1]) :: rest)
        (Expr.var "pi") = .error .noFuel) ∧
    (∀ f, evalE M f .radians (("x", Expr.var "x") :: rest) (Expr.var "x") =
        .error .noFuel) ∧
    (∀ f, evalE M (f + 1) .radians (("x", Expr.var "x") :: rest) (Expr.int 1) =
        .ok (Expr.int 1)) :=
  ⟨fun f => (piTrigEnv_diverges M rest f).1,
   xSelf_diverges M .radians rest,
   fun f => evalE_int M .radians _ 1 f⟩
